import Mathlib

/-!
Verification development for the deno-simple-fetch HTTP/1.1 client.

The definitions below are shallow embeddings of the TypeScript sources:
  src/streams.ts   (chunked transfer encoder and decoder)
  src/http-io.ts   (LineReader, readResponse, writeRequest framing)
  src/agent.ts     (single-connection agent: send, onDone, reuse decision)
  src/agent-pool.ts (pool option computation for generic-pool)

Bytes are modelled as natural numbers (the TypeScript code works on
Uint8Array values), byte strings as lists of naturals, and a socket as the
finite list of chunks that successive reads deliver before end of file.
-/

namespace SimpleFetch

/-- Whitespace bytes recognised by the JavaScript String.trim in the ASCII
range: tab, line feed, vertical tab, form feed, carriage return, space. -/
def isWS (b : Nat) : Bool :=
  b = 9 || b = 10 || b = 11 || b = 12 || b = 13 || b = 32

/-- Trim of a byte string, mirroring String.trim on ASCII input. -/
def jsTrim (l : List Nat) : List Nat :=
  ((l.dropWhile isWS).reverse.dropWhile isWS).reverse

/-- Decimal digit bytes, as used by the regex character class 0-9. -/
def isDigitByte (b : Nat) : Bool :=
  48 ≤ b && b ≤ 57

/-- Hex digit bytes, the character class 0-9a-fA-F of
validateChunkSizeLine in src/streams.ts. -/
def isHexByte (b : Nat) : Bool :=
  (48 ≤ b && b ≤ 57) || (97 ≤ b && b ≤ 102) || (65 ≤ b && b ≤ 70)

/-- Numeric value of a hex digit byte. -/
def hexVal (b : Nat) : Nat :=
  if 48 ≤ b && b ≤ 57 then b - 48
  else if 97 ≤ b && b ≤ 102 then b - 87
  else if 65 ≤ b && b ≤ 70 then b - 55
  else 0

/-- Accumulating hex parse, the effect of parseInt(s, 16) on a string of
hex digits (validateChunkSizeLine guarantees the digits-only shape). -/
def parseHexBytes (l : List Nat) : Nat :=
  l.foldl (fun acc b => acc * 16 + hexVal b) 0

/-- Lower-case hex digit for a value below 16, as produced by the
JavaScript Number.prototype.toString with radix 16. -/
def hexDigit (d : Nat) : Nat :=
  if d < 10 then 48 + d else 87 + d

/-- Hex digits of a positive number, most significant first. -/
def hexBytesCore : Nat → List Nat
  | 0 => []
  | n + 1 => hexBytesCore ((n + 1) / 16) ++ [hexDigit ((n + 1) % 16)]
decreasing_by exact Nat.div_lt_self (Nat.succ_pos n) (by omega)

/-- Byte string of chunk.length.toString(16) in createChunkedEncodingStream. -/
def hexBytes (n : Nat) : List Nat :=
  if n = 0 then [48] else hexBytesCore n

/-- findCRLF of src/streams.ts: index of the first 0x0D 0x0A pair; the
final byte alone can never start a pair. -/
def findCRLF : List Nat → Option Nat
  | [] => none
  | [_] => none
  | b :: c :: rest =>
    if b = 13 && c = 10 then some 0
    else (findCRLF (c :: rest)).map (· + 1)

/-- readLine of the chunked decoder in src/streams.ts: a line is complete
only at a CRLF pair; the terminator is consumed. -/
def decReadLine (buffer : List Nat) : Option (List Nat × List Nat) :=
  match findCRLF buffer with
  | none => none
  | some i => some (buffer.take i, buffer.drop (i + 2))

/-- LineReader._findLineEnd of src/http-io.ts: at each index the CRLF pair
is checked first, then a bare LF; returns position and terminator length. -/
def findLineEnd : List Nat → Option (Nat × Nat)
  | [] => none
  | [b] => if b = 10 then some (0, 1) else none
  | b :: c :: rest =>
    if b = 13 && c = 10 then some (0, 2)
    else if b = 10 then some (0, 1)
    else (findLineEnd (c :: rest)).map (fun p => (p.1 + 1, p.2))

@[simp] theorem findCRLF_nil : findCRLF [] = none := rfl

theorem findCRLF_bound : ∀ (l : List Nat) (i : Nat), findCRLF l = some i → i + 2 ≤ l.length := by
  intro l
  induction l with
  | nil => intro i h; simp [findCRLF] at h
  | cons b rest ih =>
    intro i h
    cases rest with
    | nil => simp [findCRLF] at h
    | cons c r =>
      rw [findCRLF] at h
      by_cases hbc : (b = 13 && c = 10) = true
      · rw [if_pos hbc] at h
        cases h
        simp
      · rw [if_neg hbc] at h
        cases hj : findCRLF (c :: r) with
        | none => rw [hj] at h; simp at h
        | some j =>
          rw [hj] at h
          have hji : j + 1 = i := by simpa using h
          have hb := ih j hj
          simp only [List.length_cons] at hb ⊢
          omega

theorem findCRLF_no13 : ∀ (l : List Nat), (∀ b ∈ l, b ≠ 13) → findCRLF l = none := by
  intro l
  induction l with
  | nil => intro _; rfl
  | cons b rest ih =>
    intro h
    cases rest with
    | nil => rfl
    | cons c r =>
      rw [findCRLF]
      have hb : b ≠ 13 := h b (by simp)
      have hbc : (b = 13 && c = 10) = false := by
        simp [hb]
      rw [hbc]
      simp only [Bool.false_eq_true, if_false]
      rw [ih (fun x hx => h x (List.mem_cons_of_mem _ hx))]
      rfl

theorem findCRLF_append_crlf : ∀ (a b : List Nat), (∀ x ∈ a, x ≠ 13) →
    findCRLF (a ++ 13 :: 10 :: b) = some a.length := by
  intro a
  induction a with
  | nil => intro b _; simp [findCRLF]
  | cons x rest ih =>
    intro b h
    have hx : x ≠ 13 := h x (by simp)
    cases rest with
    | nil =>
      simp only [List.cons_append, List.nil_append]
      rw [findCRLF]
      have : (x = 13 && (13 : Nat) = 10) = false := by simp [hx]
      rw [this]
      simp only [Bool.false_eq_true, if_false]
      rw [show findCRLF (13 :: 10 :: b) = some 0 from by rw [findCRLF]; simp]
      rfl
    | cons y r =>
      simp only [List.cons_append]
      rw [findCRLF]
      have : (x = 13 && y = 10) = false := by simp [hx]
      rw [this]
      simp only [Bool.false_eq_true, if_false]
      have := ih b (fun z hz => h z (List.mem_cons_of_mem _ hz))
      simp only [List.cons_append] at this
      rw [this]
      simp [List.length_cons]

theorem dropWhile_eq_self_of_none {p : Nat → Bool} : ∀ (l : List Nat),
    (∀ b ∈ l, p b = false) → l.dropWhile p = l := by
  intro l h
  cases l with
  | nil => rfl
  | cons b rest =>
    rw [List.dropWhile_cons, h b (by simp)]
    simp

theorem jsTrim_eq_self {l : List Nat} (h : ∀ b ∈ l, isWS b = false) : jsTrim l = l := by
  unfold jsTrim
  rw [dropWhile_eq_self_of_none l h]
  rw [dropWhile_eq_self_of_none l.reverse (fun b hb => h b (List.mem_reverse.mp hb))]
  simp

theorem hexVal_hexDigit {d : Nat} (h : d < 16) : hexVal (hexDigit d) = d := by
  unfold hexDigit hexVal
  by_cases h10 : d < 10
  · rw [if_pos h10]
    have : (48 ≤ 48 + d && 48 + d ≤ 57) = true := by
      simp only [Bool.and_eq_true, decide_eq_true_eq]
      omega
    rw [if_pos this]
    omega
  · rw [if_neg h10]
    have h1 : (48 ≤ 87 + d && 87 + d ≤ 57) = false := by
      simp only [Bool.and_eq_false_iff, decide_eq_false_iff_not]
      omega
    have h2 : (97 ≤ 87 + d && 87 + d ≤ 102) = true := by
      simp only [Bool.and_eq_true, decide_eq_true_eq]
      omega
    rw [h1]
    simp only [Bool.false_eq_true, if_false]
    rw [if_pos h2]
    omega

theorem isHexByte_hexDigit {d : Nat} (h : d < 16) : isHexByte (hexDigit d) = true := by
  unfold hexDigit isHexByte
  by_cases h10 : d < 10
  · rw [if_pos h10]
    simp only [Bool.or_eq_true, Bool.and_eq_true, decide_eq_true_eq]
    omega
  · rw [if_neg h10]
    simp only [Bool.or_eq_true, Bool.and_eq_true, decide_eq_true_eq]
    omega

theorem parseHexBytes_append_one (a : List Nat) (d : Nat) :
    parseHexBytes (a ++ [d]) = parseHexBytes a * 16 + hexVal d := by
  unfold parseHexBytes
  rw [List.foldl_append]
  rfl

theorem hexBytesCore_all_hex : ∀ n, ∀ b ∈ hexBytesCore n, isHexByte b = true := by
  intro n
  induction n using Nat.strong_induction_on with
  | _ n ih =>
    match n with
    | 0 => intro b hb; simp [hexBytesCore] at hb
    | m + 1 =>
      intro b hb
      rw [hexBytesCore] at hb
      rcases List.mem_append.mp hb with h | h
      · exact ih ((m + 1) / 16) (Nat.div_lt_self (Nat.succ_pos m) (by omega)) b h
      · have : b = hexDigit ((m + 1) % 16) := by simpa using h
        subst this
        exact isHexByte_hexDigit (Nat.mod_lt _ (by omega))

theorem parseHexBytes_hexBytesCore : ∀ n, parseHexBytes (hexBytesCore n) = n := by
  intro n
  induction n using Nat.strong_induction_on with
  | _ n ih =>
    match n with
    | 0 => rw [hexBytesCore]; rfl
    | m + 1 =>
      rw [hexBytesCore, parseHexBytes_append_one,
        ih ((m + 1) / 16) (Nat.div_lt_self (Nat.succ_pos m) (by omega)),
        hexVal_hexDigit (Nat.mod_lt _ (by omega))]
      omega

theorem hexBytes_all_hex (n : Nat) : ∀ b ∈ hexBytes n, isHexByte b = true := by
  unfold hexBytes
  by_cases h : n = 0
  · rw [if_pos h]
    intro b hb
    have : b = 48 := by simpa using hb
    subst this
    rfl
  · rw [if_neg h]
    exact hexBytesCore_all_hex n

theorem hexBytes_ne_nil (n : Nat) : hexBytes n ≠ [] := by
  unfold hexBytes
  by_cases h : n = 0
  · rw [if_pos h]; simp
  · rw [if_neg h]
    match n, h with
    | m + 1, _ =>
      rw [hexBytesCore]
      simp

theorem parseHexBytes_hexBytes (n : Nat) : parseHexBytes (hexBytes n) = n := by
  unfold hexBytes
  by_cases h : n = 0
  · rw [if_pos h, h]; rfl
  · rw [if_neg h]
    exact parseHexBytes_hexBytesCore n

theorem isHexByte_not_ws {b : Nat} (h : isHexByte b = true) : isWS b = false := by
  unfold isHexByte at h
  unfold isWS
  simp only [Bool.or_eq_true, Bool.and_eq_true, decide_eq_true_eq] at h
  simp only [Bool.or_eq_false_iff, decide_eq_false_iff_not]
  omega

theorem isHexByte_ne_13 {b : Nat} (h : isHexByte b = true) : b ≠ 13 := by
  unfold isHexByte at h
  simp only [Bool.or_eq_true, Bool.and_eq_true, decide_eq_true_eq] at h
  omega

theorem decReadLine_some {b line rest : List Nat} (h : decReadLine b = some (line, rest)) :
    rest.length + 2 ≤ b.length := by
  unfold decReadLine at h
  cases hc : findCRLF b with
  | none => rw [hc] at h; simp at h
  | some i =>
    rw [hc] at h
    have hb := findCRLF_bound b i hc
    simp only [Option.some.injEq, Prod.mk.injEq] at h
    have : rest = b.drop (i + 2) := h.2.symm
    subst this
    simp only [List.length_drop]
    omega

/-- States of the chunked decoding TransformStream in src/streams.ts. -/
inductive CPhase
  | size
  | data
  | afterChunk
  | trailer
  | done
deriving DecidableEq, Repr

/-- Rank used only for the termination measure of the decoding loop: the
data state may hand over to afterChunk without consuming input. -/
def phaseRank : CPhase → Nat
  | .data => 1
  | _ => 0

/-- Mutable state of the chunked decoder between transform calls. -/
structure DecSt where
  buffer : List Nat
  phase : CPhase
  chunkSize : Nat
  chunkBytesRead : Nat
deriving DecidableEq, Repr

/-- Result of one run of the decoding while-loop: the loop either exits
normally awaiting more input, raises a controller error, or terminates the
stream after the trailer section. Emitted bytes are accumulated. -/
inductive LoopRes
  | halted (s : DecSt) (out : List Nat)
  | errored (out : List Nat)
  | terminated (out : List Nat)
deriving DecidableEq, Repr

/-- Bytes already enqueued before the rest of a loop run. -/
def LoopRes.prepend (o : List Nat) : LoopRes → LoopRes
  | .halted s out => .halted s (o ++ out)
  | .errored out => .errored (o ++ out)
  | .terminated out => .terminated (o ++ out)

/-- validateChunkSizeLine of src/streams.ts: after trimming, the line must
be a nonempty run of hex digits. -/
def validSizeLine (line : List Nat) : Bool :=
  !(jsTrim line).isEmpty && (jsTrim line).all isHexByte

/-- The while-loop of the chunked decoding transform in src/streams.ts,
written with an explicit fuel so that evaluation is structural: each
iteration either consumes buffered bytes or moves from the data state to
afterChunk, so twice the buffer length plus the state rank bounds the
number of iterations; chunkedLoop below supplies sufficient fuel and
chunkedLoop_unfold recovers the exact loop equation. Each arm mirrors one
branch of the loop body: size reads and validates a CRLF-terminated size
line, data forwards up to the announced number of bytes, afterChunk
insists on a CRLF pair (waiting on a lone CR or an empty buffer), trailer
discards lines until the empty one terminates the stream. -/
def chunkedStep (rec : List Nat → CPhase → Nat → Nat → LoopRes)
    (buffer : List Nat) (phase : CPhase) (chunkSize chunkBytesRead : Nat) : LoopRes :=
  if buffer.isEmpty then .halted ⟨buffer, phase, chunkSize, chunkBytesRead⟩ []
  else
    match phase with
    | .done => .halted ⟨buffer, .done, chunkSize, chunkBytesRead⟩ []
    | .size =>
      match decReadLine buffer with
      | none => .halted ⟨buffer, .size, chunkSize, chunkBytesRead⟩ []
      | some (line, rest) =>
        if validSizeLine line then
          if parseHexBytes (jsTrim line) = 0 then rec rest .trailer 0 chunkBytesRead
          else rec rest .data (parseHexBytes (jsTrim line)) 0
        else .errored []
    | .data =>
      let avail := min (chunkSize - chunkBytesRead) buffer.length
      let out := buffer.take avail
      let buf' := buffer.drop avail
      let read' := chunkBytesRead + avail
      if read' = chunkSize then
        (rec buf' .afterChunk chunkSize read').prepend out
      else .halted ⟨buf', .data, chunkSize, read'⟩ out
    | .afterChunk =>
      if 2 ≤ buffer.length && buffer.getD 0 0 = 13 && buffer.getD 1 0 = 10 then
        rec (buffer.drop 2) .size chunkSize chunkBytesRead
      else if buffer.length = 1 && buffer.getD 0 0 = 13 then
        .halted ⟨buffer, .afterChunk, chunkSize, chunkBytesRead⟩ []
      else .errored []
    | .trailer =>
      match decReadLine buffer with
      | none => .halted ⟨buffer, .trailer, chunkSize, chunkBytesRead⟩ []
      | some (line, rest) =>
        if line.isEmpty then .terminated []
        else rec rest .trailer chunkSize chunkBytesRead

def chunkedLoopF : Nat → List Nat → CPhase → Nat → Nat → LoopRes
  | 0, buffer, phase, chunkSize, chunkBytesRead =>
    .halted ⟨buffer, phase, chunkSize, chunkBytesRead⟩ []
  | fuel + 1, buffer, phase, chunkSize, chunkBytesRead =>
    chunkedStep (chunkedLoopF fuel) buffer phase chunkSize chunkBytesRead

theorem chunkedLoopF_succ (fuel : Nat) (buffer : List Nat) (phase : CPhase)
    (chunkSize chunkBytesRead : Nat) :
    chunkedLoopF (fuel + 1) buffer phase chunkSize chunkBytesRead =
      chunkedStep (chunkedLoopF fuel) buffer phase chunkSize chunkBytesRead := rfl

/-- The decoding while-loop with fuel covering every iteration. -/
def chunkedLoop (buffer : List Nat) (phase : CPhase) (chunkSize chunkBytesRead : Nat) :
    LoopRes :=
  chunkedLoopF (2 * buffer.length + phaseRank phase + 1) buffer phase chunkSize chunkBytesRead

theorem chunkedLoopF_congr : ∀ (f g : Nat) (buffer : List Nat) (phase : CPhase)
    (cs cbr : Nat), 2 * buffer.length + phaseRank phase < f →
    2 * buffer.length + phaseRank phase < g →
    chunkedLoopF f buffer phase cs cbr = chunkedLoopF g buffer phase cs cbr := by
  intro f
  induction f using Nat.strong_induction_on with
  | _ f ih =>
    intro g buffer phase cs cbr hf hg
    match f, g, hf, hg with
    | f' + 1, g' + 1, hf, hg =>
      rw [chunkedLoopF_succ, chunkedLoopF_succ]
      unfold chunkedStep
      by_cases hbe : buffer.isEmpty
      · rw [if_pos hbe, if_pos hbe]
      · rw [if_neg hbe, if_neg hbe]
        cases phase with
        | done => rfl
        | size =>
          cases hdl : decReadLine buffer with
          | none => rfl
          | some p =>
            obtain ⟨line, rest⟩ := p
            have hb := decReadLine_some hdl
            dsimp only
            by_cases hv : validSizeLine line
            · rw [if_pos hv, if_pos hv]
              by_cases hz : parseHexBytes (jsTrim line) = 0
              · rw [if_pos hz, if_pos hz]
                exact ih f' (by omega) g' rest .trailer 0 cbr
                  (by simp only [phaseRank] at *; omega)
                  (by simp only [phaseRank] at *; omega)
              · rw [if_neg hz, if_neg hz]
                exact ih f' (by omega) g' rest .data _ 0
                  (by simp only [phaseRank] at *; omega)
                  (by simp only [phaseRank] at *; omega)
            · rw [if_neg hv, if_neg hv]
        | data =>
          dsimp only
          by_cases hr : cbr + min (cs - cbr) buffer.length = cs
          · rw [if_pos hr, if_pos hr]
            have hlen : (buffer.drop (min (cs - cbr) buffer.length)).length ≤ buffer.length := by
              simp only [List.length_drop]
              omega
            rw [ih f' (by omega) g'
              (buffer.drop (min (cs - cbr) buffer.length)) .afterChunk cs
              (cbr + min (cs - cbr) buffer.length)
              (by simp only [phaseRank] at *; omega)
              (by simp only [phaseRank] at *; omega)]
          · rw [if_neg hr, if_neg hr]
        | afterChunk =>
          dsimp only
          by_cases hcr : (2 ≤ buffer.length && buffer.getD 0 0 = 13 && buffer.getD 1 0 = 10) = true
          · rw [if_pos hcr, if_pos hcr]
            simp only [Bool.and_eq_true, decide_eq_true_eq] at hcr
            exact ih f' (by omega) g' (buffer.drop 2) .size cs cbr
              (by simp only [phaseRank, List.length_drop] at *; omega)
              (by simp only [phaseRank, List.length_drop] at *; omega)
          · rw [if_neg hcr, if_neg hcr]
        | trailer =>
          cases hdl : decReadLine buffer with
          | none => rfl
          | some p =>
            obtain ⟨line, rest⟩ := p
            have hb := decReadLine_some hdl
            dsimp only
            by_cases he : line.isEmpty
            · rw [if_pos he, if_pos he]
            · rw [if_neg he, if_neg he]
              exact ih f' (by omega) g' rest .trailer cs cbr
                (by simp only [phaseRank] at *; omega)
                (by simp only [phaseRank] at *; omega)

/-- The loop equation of the chunked decoding while-loop: chunkedLoop is a
fixed point of one iteration of the loop body of src/streams.ts. -/
theorem chunkedLoop_unfold (buffer : List Nat) (phase : CPhase) (chunkSize chunkBytesRead : Nat) :
    chunkedLoop buffer phase chunkSize chunkBytesRead =
      (if buffer.isEmpty then .halted ⟨buffer, phase, chunkSize, chunkBytesRead⟩ []
      else
        match phase with
        | .done => .halted ⟨buffer, .done, chunkSize, chunkBytesRead⟩ []
        | .size =>
          match decReadLine buffer with
          | none => .halted ⟨buffer, .size, chunkSize, chunkBytesRead⟩ []
          | some (line, rest) =>
            if validSizeLine line then
              if parseHexBytes (jsTrim line) = 0 then chunkedLoop rest .trailer 0 chunkBytesRead
              else chunkedLoop rest .data (parseHexBytes (jsTrim line)) 0
            else .errored []
        | .data =>
          let avail := min (chunkSize - chunkBytesRead) buffer.length
          let out := buffer.take avail
          let buf' := buffer.drop avail
          let read' := chunkBytesRead + avail
          if read' = chunkSize then
            (chunkedLoop buf' .afterChunk chunkSize read').prepend out
          else .halted ⟨buf', .data, chunkSize, read'⟩ out
        | .afterChunk =>
          if 2 ≤ buffer.length && buffer.getD 0 0 = 13 && buffer.getD 1 0 = 10 then
            chunkedLoop (buffer.drop 2) .size chunkSize chunkBytesRead
          else if buffer.length = 1 && buffer.getD 0 0 = 13 then
            .halted ⟨buffer, .afterChunk, chunkSize, chunkBytesRead⟩ []
          else .errored []
        | .trailer =>
          match decReadLine buffer with
          | none => .halted ⟨buffer, .trailer, chunkSize, chunkBytesRead⟩ []
          | some (line, rest) =>
            if line.isEmpty then .terminated []
            else chunkedLoop rest .trailer chunkSize chunkBytesRead) := by
  unfold chunkedLoop
  rw [chunkedLoopF_succ]
  unfold chunkedStep
  by_cases hbe : buffer.isEmpty
  · rw [if_pos hbe, if_pos hbe]
  · rw [if_neg hbe, if_neg hbe]
    cases phase with
    | done => rfl
    | size =>
      cases hdl : decReadLine buffer with
      | none => rfl
      | some p =>
        obtain ⟨line, rest⟩ := p
        have hb := decReadLine_some hdl
        dsimp only
        by_cases hv : validSizeLine line
        · rw [if_pos hv, if_pos hv]
          by_cases hz : parseHexBytes (jsTrim line) = 0
          · rw [if_pos hz, if_pos hz]
            exact chunkedLoopF_congr _ _ rest .trailer 0 chunkBytesRead
              (by simp only [phaseRank] at *; omega)
              (by simp only [phaseRank] at *; omega)
          · rw [if_neg hz, if_neg hz]
            exact chunkedLoopF_congr _ _ rest .data _ 0
              (by simp only [phaseRank] at *; omega)
              (by simp only [phaseRank] at *; omega)
        · rw [if_neg hv, if_neg hv]
    | data =>
      dsimp only
      by_cases hr : chunkBytesRead + min (chunkSize - chunkBytesRead) buffer.length = chunkSize
      · rw [if_pos hr, if_pos hr]
        exact congrArg (LoopRes.prepend _)
          (chunkedLoopF_congr _ _ _ .afterChunk _ _
            (by simp only [phaseRank, List.length_drop] at *; omega)
            (by simp only [phaseRank, List.length_drop] at *; omega))
      · rw [if_neg hr, if_neg hr]
    | afterChunk =>
      dsimp only
      by_cases hcr : (2 ≤ buffer.length && buffer.getD 0 0 = 13 && buffer.getD 1 0 = 10) = true
      · rw [if_pos hcr, if_pos hcr]
        simp only [Bool.and_eq_true, decide_eq_true_eq] at hcr
        exact chunkedLoopF_congr _ _ (buffer.drop 2) .size chunkSize chunkBytesRead
          (by simp only [phaseRank, List.length_drop] at *; omega)
          (by simp only [phaseRank, List.length_drop] at *; omega)
      · rw [if_neg hcr, if_neg hcr]
    | trailer =>
      cases hdl : decReadLine buffer with
      | none => rfl
      | some p =>
        obtain ⟨line, rest⟩ := p
        have hb := decReadLine_some hdl
        dsimp only
        by_cases he : line.isEmpty
        · rw [if_pos he, if_pos he]
        · rw [if_neg he, if_neg he]
          exact chunkedLoopF_congr _ _ rest .trailer chunkSize chunkBytesRead
            (by simp only [phaseRank] at *; omega)
            (by simp only [phaseRank] at *; omega)

/-- One call of the transform callback of createChunkedDecodingStream: the
incoming chunk is appended to the buffer and the while-loop runs. -/
def transformStep (s : DecSt) (chunk : List Nat) : LoopRes :=
  chunkedLoop (s.buffer ++ chunk) s.phase s.chunkSize s.chunkBytesRead

/-- Result of feeding a whole sequence of chunks to the decoder: an error,
a terminate (trailer finished), or end of input with the stream open. -/
inductive RunRes
  | errored (out : List Nat)
  | terminated (out : List Nat)
  | pending (s : DecSt) (out : List Nat)
deriving DecidableEq, Repr

def RunRes.prepend (o : List Nat) : RunRes → RunRes
  | .errored out => .errored (o ++ out)
  | .terminated out => .terminated (o ++ out)
  | .pending s out => .pending s (o ++ out)

/-- Feed chunks to the decoding transform one by one; after terminate or a
controller error, later chunks never reach the transform (the pipe fails). -/
def runDec (s : DecSt) : List (List Nat) → RunRes
  | [] => .pending s []
  | c :: rest =>
    match transformStep s c with
    | .halted s' out => (runDec s' rest).prepend out
    | .errored out => .errored out
    | .terminated out => .terminated out

/-- Initial decoder state: empty buffer, size state, counters at zero. -/
def decInit : DecSt := ⟨[], .size, 0, 0⟩

/-- Overall outcome of decoding a chunk sequence delivered before the
upstream closes. -/
inductive DecodeOutcome
  | ok (content : List Nat)
  | failed (content : List Nat)
deriving DecidableEq, Repr

/-- The flush callback of createChunkedDecodingStream errors exactly when
the stream ends inside chunk data with at least one byte received. -/
def flushErrors (s : DecSt) : Bool :=
  s.phase = CPhase.data && 0 < s.chunkBytesRead && s.chunkBytesRead < s.chunkSize

/-- Decode a full input: run the transform over every chunk, then apply
flush if the input ended without terminate. -/
def chunkedDecodeAll (inputs : List (List Nat)) : DecodeOutcome :=
  match runDec decInit inputs with
  | .errored out => .failed out
  | .terminated out => .ok out
  | .pending s out => if flushErrors s then .failed out else .ok out

/-- The transform callback of createChunkedEncodingStream in
src/streams.ts: empty chunks are skipped, any other chunk is emitted as a
hex size line, the raw bytes, and a CRLF, as three enqueued chunks. -/
def encodeChunk (c : List Nat) : List (List Nat) :=
  if c.isEmpty then [] else [hexBytes c.length ++ [13, 10], c, [13, 10]]

/-- Whole output of the chunked encoder over a stream of chunks: per-chunk
frames followed by the flush frame 0 CRLF CRLF. -/
def chunkedEncodeAll (chunks : List (List Nat)) : List (List Nat) :=
  (chunks.map encodeChunk).flatten ++ [[48, 13, 10, 13, 10]]

theorem isEmpty_false_of_ne_nil {l : List Nat} (h : l ≠ []) : l.isEmpty = false := by
  cases l with
  | nil => exact absurd rfl h
  | cons x xs => rfl

theorem jsTrim_hexBytes (n : Nat) : jsTrim (hexBytes n) = hexBytes n :=
  jsTrim_eq_self (fun b hb => isHexByte_not_ws (hexBytes_all_hex n b hb))

theorem validSizeLine_hexBytes (n : Nat) : validSizeLine (hexBytes n) = true := by
  unfold validSizeLine
  rw [jsTrim_hexBytes, isEmpty_false_of_ne_nil (hexBytes_ne_nil n)]
  simp only [Bool.not_false, Bool.true_and, List.all_eq_true]
  exact fun b hb => hexBytes_all_hex n b hb

theorem decReadLine_frame (a b : List Nat) (h13 : ∀ x ∈ a, x ≠ 13) :
    decReadLine (a ++ 13 :: 10 :: b) = some (a, b) := by
  have e : a ++ 13 :: 10 :: b = (a ++ [13, 10]) ++ b := by simp
  have ht : (a ++ 13 :: 10 :: b).take a.length = a := by
    rw [e]
    have : ((a ++ [13, 10]) ++ b).take a.length = a := by
      rw [List.take_append_of_le_length (by simp)]
      rw [List.take_append_of_le_length (by simp)]
      simp
    exact this
  have hd : (a ++ 13 :: 10 :: b).drop (a.length + 2) = b := by
    rw [e]
    have hlen : a.length + 2 = (a ++ [13, 10]).length := by simp
    rw [hlen, List.drop_left]
  unfold decReadLine
  rw [findCRLF_append_crlf a b h13]
  dsimp only
  rw [ht, hd]

theorem loop_nil (ph : CPhase) (a b : Nat) :
    chunkedLoop [] ph a b = .halted ⟨[], ph, a, b⟩ [] := by
  rw [chunkedLoop_unfold]
  rfl

theorem loop_size_frame {n : Nat} (hn : n ≠ 0) (a b : Nat) :
    chunkedLoop (hexBytes n ++ [13, 10]) .size a b = .halted ⟨[], .data, n, 0⟩ [] := by
  have hdec : decReadLine (hexBytes n ++ [13, 10]) = some (hexBytes n, []) := by
    have e : hexBytes n ++ [13, 10] = hexBytes n ++ 13 :: 10 :: ([] : List Nat) := rfl
    rw [e]
    exact decReadLine_frame _ _ (fun x hx => isHexByte_ne_13 (hexBytes_all_hex n x hx))
  rw [chunkedLoop_unfold]
  rw [isEmpty_false_of_ne_nil (by simp : hexBytes n ++ [13, 10] ≠ [])]
  simp only [Bool.false_eq_true, if_false]
  split
  · rename_i heq
    rw [hdec] at heq
    cases heq
  · rename_i line rest heq
    rw [hdec] at heq
    injection heq with heq
    injection heq with h1 h2
    subst h1
    subst h2
    rw [validSizeLine_hexBytes]
    simp only [if_true, jsTrim_hexBytes, parseHexBytes_hexBytes, hn, if_false, loop_nil]

theorem loop_data_exact (c : List Nat) (hc : c ≠ []) :
    chunkedLoop c .data c.length 0 = .halted ⟨[], .afterChunk, c.length, c.length⟩ c := by
  rw [chunkedLoop_unfold]
  rw [isEmpty_false_of_ne_nil hc]
  simp only [Bool.false_eq_true, if_false, Nat.sub_zero, Nat.min_self, List.take_length,
    List.drop_length, Nat.zero_add, if_pos rfl, loop_nil]
  simp [LoopRes.prepend]

theorem loop_after_crlf (a b : Nat) :
    chunkedLoop [13, 10] .afterChunk a b = .halted ⟨[], .size, a, b⟩ [] := by
  rw [chunkedLoop_unfold]
  norm_num [loop_nil]

theorem loop_size_end (a b : Nat) :
    chunkedLoop [48, 13, 10, 13, 10] .size a b = .terminated [] := by
  have hdec : decReadLine [48, 13, 10, 13, 10] = some ([48], [13, 10]) := by decide
  rw [chunkedLoop_unfold]
  simp only [List.isEmpty_cons, Bool.false_eq_true, if_false]
  split
  · rename_i heq
    rw [hdec] at heq
    cases heq
  · rename_i line rest heq
    rw [hdec] at heq
    injection heq with heq
    injection heq with h1 h2
    subst h1
    subst h2
    have hv : validSizeLine [48] = true := by decide
    have hp : parseHexBytes (jsTrim [48]) = 0 := by decide
    rw [hv]
    simp only [if_true, hp, if_pos rfl]
    rw [chunkedLoop_unfold]
    simp only [List.isEmpty_cons, Bool.false_eq_true, if_false]
    split
    · rename_i heq2
      have hdec2 : decReadLine [13, 10] = some ([], []) := by decide
      rw [hdec2] at heq2
      cases heq2
    · rename_i line2 rest2 heq2
      have hdec2 : decReadLine [13, 10] = some ([], []) := by decide
      rw [hdec2] at heq2
      injection heq2 with heq2
      injection heq2 with h1 h2
      subst h1
      subst h2
      rfl

theorem runDec_encode (chunks : List (List Nat)) :
    ∀ a b : Nat, runDec ⟨[], .size, a, b⟩ (chunkedEncodeAll chunks) =
      .terminated chunks.flatten := by
  induction chunks with
  | nil =>
    intro a b
    have he : chunkedEncodeAll [] = [[48, 13, 10, 13, 10]] := by
      unfold chunkedEncodeAll
      simp
    rw [he]
    have hstep : transformStep ⟨[], .size, a, b⟩ [48, 13, 10, 13, 10] = .terminated [] := by
      unfold transformStep
      simp only [List.nil_append]
      exact loop_size_end a b
    simp only [runDec, hstep, List.flatten_nil]
  | cons c cs ih =>
    intro a b
    by_cases hc : c = []
    · subst hc
      have he : chunkedEncodeAll ([] :: cs) = chunkedEncodeAll cs := by
        unfold chunkedEncodeAll encodeChunk
        simp
      rw [he, ih a b]
      simp
    · have hee : encodeChunk c = [hexBytes c.length ++ [13, 10], c, [13, 10]] := by
        unfold encodeChunk
        rw [isEmpty_false_of_ne_nil hc]
        simp
      have he : chunkedEncodeAll (c :: cs) =
          (hexBytes c.length ++ [13, 10]) :: c :: [13, 10] :: chunkedEncodeAll cs := by
        unfold chunkedEncodeAll
        rw [List.map_cons, List.flatten_cons, hee]
        simp
      rw [he]
      have hlen : c.length ≠ 0 := fun h => hc (List.eq_nil_of_length_eq_zero h)
      have h1 : transformStep ⟨[], .size, a, b⟩ (hexBytes c.length ++ [13, 10]) =
          .halted ⟨[], .data, c.length, 0⟩ [] := by
        unfold transformStep
        simp only [List.nil_append]
        exact loop_size_frame hlen a b
      have h2 : transformStep ⟨[], .data, c.length, 0⟩ c =
          .halted ⟨[], .afterChunk, c.length, c.length⟩ c := by
        unfold transformStep
        simp only [List.nil_append]
        exact loop_data_exact c hc
      have h3 : transformStep ⟨[], .afterChunk, c.length, c.length⟩ [13, 10] =
          .halted ⟨[], .size, c.length, c.length⟩ [] := by
        unfold transformStep
        simp only [List.nil_append]
        exact loop_after_crlf c.length c.length
      simp only [runDec, h1, h2, h3, ih c.length c.length, RunRes.prepend,
        List.flatten_cons, List.nil_append]

/-- LineReader.readLine of src/http-io.ts over a socket modelled as the
list of chunks remaining before end of file: look for a terminator in the
buffer; if absent, append the next read; at end of file a nonempty buffer
is surfaced as a final line and an empty buffer signals no more lines.
Returns the line (none at clean end of file), the new internal buffer and
the chunks not yet read. -/
def readLineLoop : List Nat → List (List Nat) →
    Option (List Nat) × List Nat × List (List Nat)
  | buffer, [] =>
    match findLineEnd buffer with
    | some (pos, len) => (some (buffer.take pos), buffer.drop (pos + len), [])
    | none => if buffer.isEmpty then (none, [], []) else (some buffer, [], [])
  | buffer, chunk :: rest =>
    match findLineEnd buffer with
    | some (pos, len) => (some (buffer.take pos), buffer.drop (pos + len), chunk :: rest)
    | none => readLineLoop (buffer ++ chunk) rest

theorem findLineEnd_bound : ∀ (l : List Nat) (p : Nat × Nat), findLineEnd l = some p →
    1 ≤ p.2 ∧ p.1 + p.2 ≤ l.length := by
  intro l
  induction l with
  | nil => intro p h; simp [findLineEnd] at h
  | cons b rest ih =>
    intro p h
    cases rest with
    | nil =>
      rw [findLineEnd] at h
      by_cases hb : b = 10
      · rw [if_pos hb] at h
        cases h
        refine ⟨by decide, ?_⟩
        simp
      · rw [if_neg hb] at h
        cases h
    | cons c r =>
      rw [findLineEnd] at h
      by_cases hbc : (b = 13 && c = 10) = true
      · rw [if_pos hbc] at h
        cases h
        refine ⟨by decide, ?_⟩
        dsimp only
        simp only [List.length_cons]
        omega
      · rw [if_neg hbc] at h
        by_cases hb : b = 10
        · rw [if_pos hb] at h
          cases h
          refine ⟨by decide, ?_⟩
          dsimp only
          simp only [List.length_cons]
          omega
        · rw [if_neg hb] at h
          cases hp : findLineEnd (c :: r) with
          | none => rw [hp] at h; simp at h
          | some q =>
            rw [hp] at h
            have hq := ih q hp
            have : (q.1 + 1, q.2) = p := by simpa using h
            subst this
            dsimp only at hq ⊢
            simp only [List.length_cons] at hq ⊢
            omega

/-- Total number of bytes in a chunk list. -/
def byteCount (input : List (List Nat)) : Nat :=
  (input.map List.length).sum

/-- Measure that line extraction strictly decreases: pending bytes plus the
number of chunks still unread. -/
def lineMeasure (buffer : List Nat) (input : List (List Nat)) : Nat :=
  buffer.length + byteCount input + input.length

theorem readLineLoop_progress : ∀ (input : List (List Nat)) (buffer line buf' : List Nat)
    (input' : List (List Nat)),
    readLineLoop buffer input = (some line, buf', input') →
    lineMeasure buf' input' < lineMeasure buffer input := by
  intro input
  induction input with
  | nil =>
    intro buffer line buf' input' h
    rw [readLineLoop] at h
    cases hf : findLineEnd buffer with
    | some p =>
      obtain ⟨pos, len⟩ := p
      rw [hf] at h
      obtain ⟨h1, h2⟩ := findLineEnd_bound buffer (pos, len) hf
      cases h
      unfold lineMeasure byteCount
      simp only [List.map_nil, List.sum_nil, List.length_nil, List.length_drop] at h1 h2 ⊢
      omega
    | none =>
      rw [hf] at h
      by_cases hb : buffer.isEmpty
      · rw [if_pos hb] at h
        cases h
      · rw [if_neg hb] at h
        cases h
        unfold lineMeasure byteCount
        simp only [List.map_nil, List.sum_nil, List.length_nil]
        have hz : buffer.length ≠ 0 := by
          intro hz
          exact hb (by cases buffer with | nil => rfl | cons x xs => simp at hz)
        omega
  | cons chunk rest ih =>
    intro buffer line buf' input' h
    rw [readLineLoop] at h
    cases hf : findLineEnd buffer with
    | some p =>
      obtain ⟨pos, len⟩ := p
      rw [hf] at h
      obtain ⟨h1, h2⟩ := findLineEnd_bound buffer (pos, len) hf
      cases h
      unfold lineMeasure
      simp only [List.length_drop] at h1 h2 ⊢
      omega
    | none =>
      rw [hf] at h
      have := ih (buffer ++ chunk) line buf' input' h
      unfold lineMeasure byteCount at this ⊢
      simp only [List.length_append, List.map_cons, List.sum_cons, List.length_cons] at this ⊢
      omega

theorem readLineLoop_none : ∀ (input : List (List Nat)) (buffer : List Nat),
    (readLineLoop buffer input).1 = none ↔ buffer ++ input.flatten = [] := by
  intro input
  induction input with
  | nil =>
    intro buffer
    rw [readLineLoop]
    cases hf : findLineEnd buffer with
    | some p =>
      obtain ⟨pos, len⟩ := p
      constructor
      · intro h; cases h
      · intro h
        have hb : buffer = [] := by simpa using h
        subst hb
        simp [findLineEnd] at hf
    | none =>
      by_cases hb : buffer.isEmpty
      · have hbn : buffer = [] := by
          cases buffer with
          | nil => rfl
          | cons x xs => simp [List.isEmpty] at hb
        subst hbn
        simp
      · have hbne : buffer ≠ [] := by
          intro h
          subst h
          simp at hb
        rw [if_neg hb]
        simpa using hbne
  | cons chunk rest ih =>
    intro buffer
    rw [readLineLoop]
    cases hf : findLineEnd buffer with
    | some p =>
      obtain ⟨pos, len⟩ := p
      constructor
      · intro h; cases h
      · intro h
        have hb : buffer = [] := by
          rcases List.append_eq_nil.mp h with ⟨h1, _⟩
          exact h1
        subst hb
        simp [findLineEnd] at hf
    | none =>
      rw [ih (buffer ++ chunk)]
      simp

/-- Byte string of an ASCII Lean string literal, for readable header names. -/
def strBytes (s : String) : List Nat :=
  s.toList.map Char.toNat

/-- ASCII lower-casing byte by byte, the effect of toLowerCase on the
header names the code produces. -/
def lowerByte (b : Nat) : Nat :=
  if 65 ≤ b && b ≤ 90 then b + 32 else b

/-- Index of the first colon in a header line, indexOf of the colon. -/
def findColon : List Nat → Option Nat
  | [] => none
  | b :: rest =>
    if b = 58 then some 0 else (findColon rest).map (· + 1)

/-- A parsed header list in append order, names already lower-cased. -/
def HeadersL := List (List Nat × List Nat)

instance : DecidableEq HeadersL := by
  unfold HeadersL
  infer_instance

instance : Append HeadersL := ⟨fun a b => List.append a b⟩

/-- One iteration body of LineReader.readHeaders: a line without a colon is
skipped, otherwise the name (before the first colon) is trimmed and
lower-cased and the value (after it) trimmed. -/
def parseHeaderLine (line : List Nat) : HeadersL :=
  match findColon line with
  | none => []
  | some i => [((jsTrim (line.take i)).map lowerByte, jsTrim (line.drop (i + 1)))]

/-- LineReader.readHeaders of src/http-io.ts: read lines until a null or
empty line, appending each parsed header. Returns the header list, the
remaining internal buffer and the unread socket chunks. Written with an
explicit fuel (every extracted line consumes from the line measure), so
evaluation is structural; readHeadersLoop supplies sufficient fuel and
readHeadersLoop_unfold recovers the exact loop equation. -/
def readHeadersF : Nat → List Nat → List (List Nat) → HeadersL →
    HeadersL × List Nat × List (List Nat)
  | 0, buffer, input, acc => (acc, buffer, input)
  | fuel + 1, buffer, input, acc =>
    match readLineLoop buffer input with
    | (none, buf', input') => (acc, buf', input')
    | (some line, buf', input') =>
      if line.isEmpty then (acc, buf', input')
      else readHeadersF fuel buf' input' (acc ++ parseHeaderLine line)

/-- The header-reading loop with fuel covering every line. -/
def readHeadersLoop (buffer : List Nat) (input : List (List Nat)) (acc : HeadersL) :
    HeadersL × List Nat × List (List Nat) :=
  readHeadersF (lineMeasure buffer input + 1) buffer input acc

theorem readHeadersF_congr : ∀ (f g : Nat) (buffer : List Nat) (input : List (List Nat))
    (acc : HeadersL), lineMeasure buffer input < f → lineMeasure buffer input < g →
    readHeadersF f buffer input acc = readHeadersF g buffer input acc := by
  intro f
  induction f using Nat.strong_induction_on with
  | _ f ih =>
    intro g buffer input acc hf hg
    match f, g, hf, hg with
    | f' + 1, g' + 1, hf, hg =>
      rw [readHeadersF, readHeadersF]
      rcases hrl : readLineLoop buffer input with ⟨o, buf', input'⟩
      cases o with
      | none => rfl
      | some line =>
        dsimp only
        by_cases he : line.isEmpty
        · rw [if_pos he, if_pos he]
        · rw [if_neg he, if_neg he]
          have hm := readLineLoop_progress input buffer line buf' input' hrl
          exact ih f' (by omega) g' buf' input' (acc ++ parseHeaderLine line)
            (by omega) (by omega)

/-- The loop equation of readHeaders: readHeadersLoop is a fixed point of
one iteration of the loop body of src/http-io.ts. -/
theorem readHeadersLoop_unfold (buffer : List Nat) (input : List (List Nat)) (acc : HeadersL) :
    readHeadersLoop buffer input acc =
      (match readLineLoop buffer input with
      | (none, buf', input') => (acc, buf', input')
      | (some line, buf', input') =>
        if line.isEmpty then (acc, buf', input')
        else readHeadersLoop buf' input' (acc ++ parseHeaderLine line)) := by
  unfold readHeadersLoop
  rw [readHeadersF]
  rcases hrl : readLineLoop buffer input with ⟨o, buf', input'⟩
  cases o with
  | none => rfl
  | some line =>
    dsimp only
    by_cases he : line.isEmpty
    · rw [if_pos he, if_pos he]
    · rw [if_neg he, if_neg he]
      have hm := readLineLoop_progress input buffer line buf' input' hrl
      exact readHeadersF_congr _ _ buf' input' (acc ++ parseHeaderLine line)
        (by omega) (by omega)

/-- Headers.has on the parsed list (query names are already lower-case). -/
def hdrHas (n : List Nat) (hs : HeadersL) : Bool :=
  (hs : List (List Nat × List Nat)).any (fun p => p.1 = n)

/-- Headers.get on the parsed list: values of duplicate names are joined
with a comma and a space, absence gives null. -/
def hdrGet (n : List Nat) (hs : HeadersL) : Option (List Nat) :=
  let vs := ((hs : List (List Nat × List Nat)).filter (fun p => p.1 = n)).map Prod.snd
  if vs.isEmpty then none else some (List.intercalate [44, 32] vs)

/-- Headers.delete on the parsed list. -/
def hdrDelete (n : List Nat) (hs : HeadersL) : HeadersL :=
  (hs : List (List Nat × List Nat)).filter (fun p => ¬ p.1 = n)

/-- String.prototype.includes, used for the chunked transfer-encoding test. -/
def containsSub (needle hay : List Nat) : Bool :=
  decide (needle <:+: hay)

/-- String.prototype.split on the space character: every separator splits,
empty fields included. -/
def splitSpace : List Nat → List (List Nat)
  | [] => [[]]
  | b :: rest =>
    if b = 32 then [] :: splitSpace rest
    else
      match splitSpace rest with
      | [] => [[b]]
      | t :: ts => (b :: t) :: ts

/-- Value of a run of decimal digit bytes. -/
def digitsVal (ds : List Nat) : Nat :=
  ds.foldl (fun acc b => acc * 10 + (b - 48)) 0

/-- JavaScript parseInt with radix 10 on a byte string: leading whitespace
skipped, optional sign, leading digit run; no digits gives NaN (none). -/
def parseIntJS (l : List Nat) : Option Int :=
  let t := l.dropWhile isWS
  let core : List Nat → Option Int := fun u =>
    let ds := u.takeWhile isDigitByte
    if ds.isEmpty then none else some (digitsVal ds : Int)
  match t with
  | 45 :: rest => (core rest).map (fun n => -n)
  | 43 :: rest => core rest
  | _ => core t

def clName : List Nat := strBytes "content-length"

def teName : List Nat := strBytes "transfer-encoding"

def ceName : List Nat := strBytes "content-encoding"

def chunkedBytes : List Nat := strBytes "chunked"

/-- The shouldIgnoreBody predicate built in agent.send (src/agent.ts):
HEAD requests and 1xx, 204 and 304 statuses have no body. A status of
none models the NaN parse of a malformed status field, for which all the
numeric comparisons are false. -/
def shouldIgnoreBody (isHead : Bool) (status : Option Int) : Bool :=
  isHead ||
    match status with
    | none => false
    | some s => (decide (100 ≤ s) && decide (s < 200)) || decide (s = 204) || decide (s = 304)

/-- How the response body will be framed, decided by readResponse from the
parsed headers: ignored bodies close at once, chunked pipes the decoder,
a content-length header pipes the byte counter (keeping the raw header
value, parsed only by the transform), anything else streams until the
peer closes. -/
inductive BodyPlan
  | ignored
  | chunked
  | contentLength (v : List Nat)
  | untilClose
deriving DecidableEq

/-- The two exception classes the platform Response constructor can throw
when readResponse builds the response object. -/
inductive CtorKind
  | rangeError
  | typeError
deriving DecidableEq, Repr

/-- Error surface of readResponse: UnexpectedEofError is thrown only when
the very first readLine returns null; the Response constructor at the end
of readResponse can throw RangeError or TypeError. The onDoneRan flag
records whether the body stream had already run onDone (the ignored-body
start callback closes the stream and fires onDone when the stream is
built, before the constructor throws). -/
inductive HttpIoErr
  | unexpectedEof
  | ctorError (k : CtorKind) (onDoneRan : Bool)
deriving DecidableEq, Repr

/-- The IDL unsigned-short conversion applied to the status member of the
Response init dictionary: modulo 65536, with the NaN of a failed parseInt
converting to zero. -/
def statusUint16 : Option Int → Nat
  | none => 0
  | some s => (s % 65536).toNat

/-- Null body statuses of the fetch standard. -/
def isNullBodyStatus (u : Nat) : Bool :=
  u = 101 || u = 103 || u = 204 || u = 205 || u = 304

/-- The reason-phrase token production (HTAB / SP / VCHAR / obs-text) the
Response constructor checks statusText against, on the raw bytes (exact
for ASCII status lines). -/
def reasonPhraseOk (l : List Nat) : Bool :=
  l.all (fun b => b = 9 || b = 32 || (33 ≤ b && b ≤ 126) || (128 ≤ b && b ≤ 255))

/-- The throwing behaviour of new Response(bodyStream, init) at the end of
readResponse (src/http-io.ts line 237), per the WHATWG fetch standard: a
RangeError when the converted status lies outside 200 to 599, a TypeError
when statusText fails the reason-phrase production, and a TypeError when
the status is a null body status — the body argument readResponse passes
is always a non-null ReadableStream, even for ignored bodies. -/
def responseCtorError (status : Option Int) (statusText : List Nat) : Option CtorKind :=
  let u := statusUint16 status
  if u < 200 || 599 < u then some .rangeError
  else if !reasonPhraseOk statusText then some .typeError
  else if isNullBodyStatus u then some .typeError
  else none

/-- Head parse result of readResponse in src/http-io.ts: status fields,
headers after the ignore-body deletions, the body plan, the bytes left in
the line reader buffer and the chunks not yet read from the socket. -/
structure ParsedResponse where
  status : Option Int
  statusText : List Nat
  headers : HeadersL
  plan : BodyPlan
  remaining : List Nat
  rest : List (List Nat)
deriving DecidableEq

/-- readResponse of src/http-io.ts: read the status line (null means
UnexpectedEofError), split it on spaces into protocol, status and status
text, read the header block; if shouldIgnoreBody holds for the status,
drop the three framing headers; select the body plan in the order of the
code: ignore, chunked via transfer-encoding containing chunked,
content-length, read-until-close. The body stream is built first — its
start callback closes an ignored body at once and fires onDone — and then
new Response(bodyStream, init) runs: when the constructor throws
(RangeError or TypeError as modelled by responseCtorError) readResponse
rejects with that error, after onDone already ran iff the body was
ignored. -/
def readResponseModel (isHead : Bool) (input : List (List Nat)) :
    Except HttpIoErr ParsedResponse :=
  match readLineLoop [] input with
  | (none, _, _) => .error .unexpectedEof
  | (some statusLine, buf1, in1) =>
    let fields := splitSpace statusLine
    let status := parseIntJS (fields.getD 1 [])
    let statusText := List.intercalate [32] (fields.drop 2)
    let hbi := readHeadersLoop buf1 in1 []
    let ignore := shouldIgnoreBody isHead status
    let hdrs' : HeadersL :=
      if ignore then hdrDelete ceName (hdrDelete teName (hdrDelete clName hbi.1)) else hbi.1
    let chunked :=
      match hdrGet teName hdrs' with
      | some v => containsSub chunkedBytes v
      | none => false
    let plan : BodyPlan :=
      if ignore then .ignored
      else if chunked then .chunked
      else
        match hdrGet clName hdrs' with
        | some v => .contentLength v
        | none => .untilClose
    match responseCtorError status statusText with
    | some k => .error (.ctorError k ignore)
    | none => .ok ⟨status, statusText, hdrs', plan, hbi.2.1, hbi.2.2⟩

/-- Number of socket chunks pulled before a byte target is covered. -/
def chunksUntil : Nat → List (List Nat) → Nat
  | _, [] => 0
  | t, c :: rest => if t ≤ c.length then 1 else 1 + chunksUntil (t - c.length) rest

/-- Number of chunks the decoding transform consumes before erroring or
terminating (all of them if neither happens). -/
def decConsumed (s : DecSt) : List (List Nat) → Nat
  | [] => 0
  | c :: rest =>
    match transformStep s c with
    | .halted s' _ => 1 + decConsumed s' rest
    | _ => 1

/-- Outcome of draining a response body: the surfaced content, whether the
stream errored, how often the onDone callback ran, and how many socket
chunks were read for the body. -/
structure BodyRun where
  content : List Nat
  errored : Bool
  onDoneRuns : Nat
  socketReads : Nat
deriving DecidableEq, Repr

/-- Semantics of the body stream built by readResponse for each plan, for
a caller that drains the stream. An ignored body closes in the start
callback, running onDone at once without touching the socket. The
until-close plan forwards the leftover buffer and every socket chunk until
end of file. The content-length plan forwards bytes up to the parsed
length, terminating early when covered (a NaN length forwards nothing but
consumes the stream). The chunked plan feeds the leftover and the socket
chunks to the decoding transform with its flush at end of input. Each
path runs onDone exactly once: stream end and error reach the pull
finally-block, early termination cancels the source. -/
def runBody (plan : BodyPlan) (remaining : List Nat) (rest : List (List Nat)) : BodyRun :=
  match plan with
  | .ignored => ⟨[], false, 1, 0⟩
  | .untilClose => ⟨remaining ++ rest.flatten, false, 1, rest.length⟩
  | .contentLength v =>
    match parseIntJS v with
    | none => ⟨[], false, 1, rest.length⟩
    | some n =>
      let n' := n.toNat
      let total := remaining ++ rest.flatten
      if n' ≤ total.length then
        ⟨total.take n', false, 1,
          if n' ≤ remaining.length then 0 else chunksUntil (n' - remaining.length) rest⟩
      else ⟨total, false, 1, rest.length⟩
  | .chunked =>
    let src := (if remaining.isEmpty then [] else [remaining]) ++ rest
    let consumed := decConsumed decInit src
    let reads := if remaining.isEmpty then consumed else consumed - 1
    match runDec decInit src with
    | .errored out => ⟨out, true, 1, reads⟩
    | .terminated out => ⟨out, false, 1, reads⟩
    | .pending s out =>
      if flushErrors s then ⟨out, true, 1, reads⟩ else ⟨out, false, 1, reads⟩

/-- Agent state visible across send calls: whether a socket is held open
and the busy flag (isIdle is its negation). -/
structure AgentSt where
  hasConnection : Bool
  isBusy : Bool
deriving DecidableEq, Repr

/-- Where the composed abort signal fires relative to the awaited steps of
send: not at all, in the throwIfAborted guard before any state change, or
during the connect, request write, or head parse awaits. Aborts after the
head is parsed act through the body stream and are modelled as a trigger. -/
inductive AbortPoint
  | never
  | preSend
  | duringConnect
  | duringWrite
  | duringHead
deriving DecidableEq, Repr

/-- The three ways the onDone callback of src/agent.ts can be reached once
a response has been returned: the body stream ends (pull finally or an end
of the decoder), the stream is cancelled (caller cancel or the abort
listener calling body.cancel), or the FinalizationRegistry cleanup for a
reclaimed response, which passes forceClose. -/
inductive Trigger
  | bodyEnd
  | cancelOrAbort
  | gcFinalize
deriving DecidableEq, Repr

/-- Socket operations in program order, to witness what send touched. -/
inductive SockOp
  | connectOp
  | writeOp
  | readHeadOp
deriving DecidableEq, Repr

/-- Error surface of agent.send in this model: the catch block converts
only UnexpectedEofError (by name), so the RangeError or TypeError of the
Response constructor propagates unchanged. -/
inductive SendErr
  | agentBusy
  | aborted
  | originMismatch
  | connectionClosed
  | responseCtor (k : CtorKind)
deriving DecidableEq, Repr

/-- Inputs and environment of one send call: whether the resolved request
origin equals the raw base url string, whether the method is HEAD, where
the abort signal fires, the socket chunks the peer will deliver, and the
sequence of body-completion triggers that occur after the head returns. -/
structure SendInput where
  originMatches : Bool
  isHead : Bool
  abortAt : AbortPoint
  socketInput : List (List Nat)
  triggers : List Trigger
deriving DecidableEq

/-- State captured by the onDone closure: its finalized flag plus the
connection and busy fields it mutates. -/
structure DoneCtx where
  finalized : Bool
  hasConnection : Bool
  isBusy : Bool
deriving DecidableEq, Repr

/-- The onDone closure of src/agent.ts: a second call returns at once on
the finalized flag; the first call closes the connection when the
force-close argument (defaulting to the current shouldCloseAfterBody)
holds, clears the busy flag and resolves the idle waiter. The Bool result
records whether the body ran. -/
def onDoneCall (shouldClose : Bool) (arg : Option Bool) (c : DoneCtx) : DoneCtx × Bool :=
  if c.finalized then (c, false)
  else
    (⟨true, if arg.getD shouldClose then false else c.hasConnection, false⟩, true)

/-- Argument each trigger passes to onDone: stream end and cancellation
use the default parameter, the finalization registry forces a close. -/
def triggerArg : Trigger → Option Bool
  | .bodyEnd => none
  | .cancelOrAbort => none
  | .gcFinalize => some true

/-- Run every trigger that occurs against the onDone closure, counting how
many calls actually executed the body. -/
def runTriggers (shouldClose : Bool) (c : DoneCtx) : List Trigger → DoneCtx × Nat
  | [] => (c, 0)
  | t :: ts =>
    let step := onDoneCall shouldClose (triggerArg t) c
    let restRun := runTriggers shouldClose step.1 ts
    (restRun.1, (if step.2 then 1 else 0) + restRun.2)

/-- The reuse decision of src/agent.ts lines 153 to 161: reusable iff the
response headers carry content-length or a transfer-encoding containing
chunked. -/
def reuseFraming (hs : HeadersL) : Bool :=
  hdrHas clName hs ||
    (match hdrGet teName hs with
     | some v => containsSub chunkedBytes v
     | none => false)

deriving instance DecidableEq for Except

/-- Everything observable about one send call. -/
structure SendOut where
  state : AgentSt
  result : Except SendErr ParsedResponse
  ops : List SockOp
  onDoneRuns : Nat
deriving DecidableEq

/-- agent.send of src/agent.ts. A busy agent throws before touching
anything. throwIfAborted fires before any state change. The try block
validates the origin, connects if no socket is held, writes the request
and parses the head; any throw lands in the catch block, which marks the
agent idle, closes the socket, maps UnexpectedEofError (by name) to
ConnectionClosedError and rethrows every other error — in particular the
RangeError or TypeError of the Response constructor, whose throw may come
after the ignored-body start callback already ran onDone once. On success
with an ignored body, onDone has already run inside readResponse while
shouldCloseAfterBody still held its initial false value, so the
connection survives and later triggers are no-ops; otherwise the triggers
drive onDone with the framing-based default. -/
def agentSend (st : AgentSt) (inp : SendInput) : SendOut :=
  if st.isBusy then ⟨st, .error .agentBusy, [], 0⟩
  else if inp.abortAt = .preSend then ⟨st, .error .aborted, [], 0⟩
  else
    let connOps : List SockOp := if st.hasConnection then [] else [.connectOp]
    if !inp.originMatches then ⟨⟨false, false⟩, .error .originMismatch, [], 0⟩
    else if inp.abortAt = .duringConnect then ⟨⟨false, false⟩, .error .aborted, connOps, 0⟩
    else if inp.abortAt = .duringWrite then
      ⟨⟨false, false⟩, .error .aborted, connOps ++ [.writeOp], 0⟩
    else if inp.abortAt = .duringHead then
      ⟨⟨false, false⟩, .error .aborted, connOps ++ [.writeOp, .readHeadOp], 0⟩
    else
      let ops := connOps ++ [.writeOp, .readHeadOp]
      match readResponseModel inp.isHead inp.socketInput with
      | .error .unexpectedEof => ⟨⟨false, false⟩, .error .connectionClosed, ops, 0⟩
      | .error (.ctorError k ran) =>
        ⟨⟨false, false⟩, .error (.responseCtor k), ops, if ran then 1 else 0⟩
      | .ok r =>
        if r.plan = .ignored then ⟨⟨true, false⟩, .ok r, ops, 1⟩
        else
          let shouldClose := !reuseFraming r.headers
          let fin := runTriggers shouldClose ⟨false, true, true⟩ inp.triggers
          ⟨⟨fin.1.hasConnection, fin.1.isBusy⟩, .ok r, ops, fin.2⟩

/-- Schemes the agent accepts (src/agent.ts rejects everything else at
construction). -/
inductive Scheme
  | http
  | https
deriving DecidableEq, Repr

/-- A parsed http or https URL as the platform URL class exposes it: the
port field is empty (none) when it is the scheme default. Only the parts
that feed the origin string matter here. -/
structure UrlModel where
  scheme : Scheme
  host : List Char
  port : Option Nat
deriving DecidableEq

def schemeChars : Scheme → List Char
  | .http => ['h', 't', 't', 'p']
  | .https => ['h', 't', 't', 'p', 's']

/-- Decimal digit character. -/
def digitChar (d : Nat) : Char :=
  if d = 0 then '0' else if d = 1 then '1' else if d = 2 then '2'
  else if d = 3 then '3' else if d = 4 then '4' else if d = 5 then '5'
  else if d = 6 then '6' else if d = 7 then '7' else if d = 8 then '8' else '9'

def decCharsCore : Nat → List Char
  | 0 => []
  | n + 1 => decCharsCore ((n + 1) / 10) ++ [digitChar ((n + 1) % 10)]
decreasing_by exact Nat.div_lt_self (Nat.succ_pos n) (by omega)

/-- Decimal rendering of a port number. -/
def decChars (n : Nat) : List Char :=
  if n = 0 then ['0'] else decCharsCore n

/-- Origin serialization of the platform URL class for http and https
URLs: scheme, colon, two slashes, host, and a colon plus the port unless
the port field is empty. -/
def urlOrigin (u : UrlModel) : List Char :=
  schemeChars u.scheme ++ [':', '/', '/'] ++ u.host ++
    (match u.port with
     | none => []
     | some p => ':' :: decChars p)

/-- Well-formedness the URL class guarantees for a parsed http or https
URL: a nonempty host that contains no slash. -/
def UrlWF (u : UrlModel) : Prop :=
  u.host ≠ [] ∧ ∀ c ∈ u.host, c ≠ '/'

instance (u : UrlModel) : Decidable (UrlWF u) := by
  unfold UrlWF
  infer_instance

/-- The origin guard of agent.send (src/agent.ts lines 81 to 87): the
origin string of new URL(requestUrl, baseUrl) is compared against the raw
baseUrl string the agent was created with. -/
def originMatchesCheck (resolved : UrlModel) (baseRaw : List Char) : Bool :=
  decide (urlOrigin resolved = baseRaw)

/-- Options accepted for poolIdleTimeout: absent, the disabled sentinel
false, or a number of milliseconds (zero is falsy in the source and so
behaves like absent). -/
inductive IdleTimeoutOpt
  | unset
  | disabled
  | ms (n : Nat)
deriving DecidableEq, Repr

def defaultEvictionInterval : Nat := 10000

def defaultIdleTimeout : Nat := 30000

/-- evictionRunIntervalMillis as computed by createAgentPool in
src/agent-pool.ts: zero when the idle timeout is the disabled sentinel,
otherwise the minimum of the (falsy-defaulted) idle timeout and the
internal ten second cap. -/
def evictionRunIntervalMillis : IdleTimeoutOpt → Nat
  | .disabled => 0
  | .unset => min defaultEvictionInterval defaultEvictionInterval
  | .ms n =>
    if n = 0 then min defaultEvictionInterval defaultEvictionInterval
    else min n defaultEvictionInterval

/-- softIdleTimeoutMillis as computed by createAgentPool: minus one when
disabled, otherwise the idle timeout clamped below by one, defaulting to
thirty seconds. -/
def softIdleTimeoutMillis : IdleTimeoutOpt → Int
  | .disabled => -1
  | .unset => max 1 (defaultIdleTimeout : Int)
  | .ms n =>
    if n = 0 then max 1 (defaultIdleTimeout : Int) else max 1 (n : Int)

/-- Modelled from the spec: the generic-pool dependency (not part of this
repository) starts its periodic evictor iff evictionRunIntervalMillis is
positive; with interval zero no eviction task is scheduled. -/
def evictorScheduled (o : IdleTimeoutOpt) : Bool :=
  0 < evictionRunIntervalMillis o

/-- The idle timeout the spec describes: the configured number of
milliseconds, defaulting to 30000 when unset (a zero value is falsy in the
source and falls back to the default as well). -/
def specIdleTimeout : IdleTimeoutOpt → Nat
  | .unset => defaultIdleTimeout
  | .disabled => 0
  | .ms n => if n = 0 then defaultIdleTimeout else n

/-- The isIdle observable of the agent: the negation of the busy flag. -/
def AgentSt.isIdle (st : AgentSt) : Bool :=
  !st.isBusy

theorem runTriggers_finalized : ∀ (ts : List Trigger) (sc : Bool) (c : DoneCtx),
    c.finalized = true → runTriggers sc c ts = (c, 0) := by
  intro ts
  induction ts with
  | nil => intro sc c _; rfl
  | cons t ts ih =>
    intro sc c h
    rw [runTriggers]
    unfold onDoneCall
    rw [h]
    simp only [if_true]
    rw [ih sc c h]
    rfl

theorem runTriggers_cons (sc : Bool) (hc hb : Bool) (t : Trigger) (ts : List Trigger) :
    runTriggers sc ⟨false, hc, hb⟩ (t :: ts) =
      (⟨true, if (triggerArg t).getD sc then false else hc, false⟩, 1) := by
  rw [runTriggers]
  unfold onDoneCall
  simp only [Bool.false_eq_true, if_false]
  rw [runTriggers_finalized ts sc _ rfl]
  simp

theorem readResponseModel_error_iff (isHead : Bool) (input : List (List Nat)) :
    readResponseModel isHead input = .error .unexpectedEof ↔ input.flatten = [] := by
  have hnone := readLineLoop_none input []
  simp only [List.nil_append] at hnone
  rw [← hnone]
  unfold readResponseModel
  rcases readLineLoop [] input with ⟨o, buf1, in1⟩
  cases o with
  | none => simp
  | some line =>
    dsimp only
    constructor
    · intro h
      split at h
      · simp at h
      · simp at h
    · intro h
      simp at h

theorem readResponseModel_eof {isHead : Bool} {input : List (List Nat)}
    (h : input.flatten = []) :
    readResponseModel isHead input = .error .unexpectedEof :=
  (readResponseModel_error_iff isHead input).mpr h

/-- C3: piping a finite byte stream through the chunked encoding transform
and then through the chunked decoding transform yields exactly the
original byte content, for every stream including the empty one and those
containing empty chunks (which the encoder skips). -/
theorem c3_chunked_roundtrip (chunks : List (List Nat)) :
    chunkedDecodeAll (chunkedEncodeAll chunks) = .ok chunks.flatten := by
  unfold chunkedDecodeAll decInit
  rw [runDec_encode chunks 0 0]

/-- C7: when the transport reaches end of file before any status-line byte
(the socket delivers no bytes at all), send fails with the
ConnectionClosed error, the agent closes its socket and is idle again. -/
theorem c7_connection_closed (st : AgentSt) (inp : SendInput)
    (hidle : st.isBusy = false) (hab : inp.abortAt = .never)
    (hor : inp.originMatches = true) (heof : inp.socketInput.flatten = []) :
    (agentSend st inp).result = .error .connectionClosed ∧
      (agentSend st inp).state.hasConnection = false ∧
      (agentSend st inp).state.isIdle = true := by
  unfold agentSend
  rw [hidle, hab, hor, readResponseModel_eof heof]
  simp [AgentSt.isIdle]

theorem c7_connection_closed_witness :
    (agentSend ⟨false, false⟩ ⟨true, false, .never, [], []⟩).result =
        .error .connectionClosed ∧
      (agentSend ⟨false, false⟩ ⟨true, false, .never, [], []⟩).state.hasConnection = false ∧
      (agentSend ⟨false, false⟩ ⟨true, false, .never, [], []⟩).state.isIdle = true :=
  c7_connection_closed ⟨false, false⟩ ⟨true, false, .never, [], []⟩ rfl rfl rfl rfl

/-- C8: send on a busy agent fails with the AgentBusy error before any
connect, write or read, and leaves the whole agent state unchanged. -/
theorem c8_agent_busy (st : AgentSt) (inp : SendInput) (h : st.isBusy = true) :
    agentSend st inp = ⟨st, .error .agentBusy, [], 0⟩ := by
  unfold agentSend
  rw [h]
  simp

theorem c8_agent_busy_witness :
    agentSend ⟨true, true⟩ ⟨true, false, .never, [], []⟩ =
      ⟨⟨true, true⟩, .error .agentBusy, [], 0⟩ :=
  c8_agent_busy ⟨true, true⟩ ⟨true, false, .never, [], []⟩ rfl

/-- C9: the eviction task runs with period min(idle timeout, ten seconds)
whenever an idle timeout is in effect, the timeout defaulting to thirty
seconds when unset (or falsy), and the disabled sentinel schedules no
eviction task at all. -/
theorem c9_eviction_schedule (o : IdleTimeoutOpt) :
    (o = .disabled → evictorScheduled o = false) ∧
      (o ≠ .disabled →
        evictorScheduled o = true ∧
          evictionRunIntervalMillis o = min (specIdleTimeout o) defaultEvictionInterval) := by
  constructor
  · intro h
    subst h
    rfl
  · intro h
    cases o with
    | disabled => exact absurd rfl h
    | unset => exact ⟨rfl, rfl⟩
    | ms n =>
      by_cases hz : n = 0
      · subst hz
        exact ⟨rfl, rfl⟩
      · constructor
        · simp only [evictorScheduled, evictionRunIntervalMillis, if_neg hz,
            decide_eq_true_eq, defaultEvictionInterval]
          omega
        · simp only [evictionRunIntervalMillis, specIdleTimeout, if_neg hz]

theorem c9_eviction_schedule_witness :
    (evictorScheduled .disabled = false) ∧
      (evictorScheduled (.ms 4000) = true ∧
        evictionRunIntervalMillis (.ms 4000) =
          min (specIdleTimeout (.ms 4000)) defaultEvictionInterval) ∧
      (evictorScheduled .unset = true ∧
        evictionRunIntervalMillis .unset =
          min (specIdleTimeout .unset) defaultEvictionInterval) :=
  ⟨(c9_eviction_schedule .disabled).1 rfl,
    (c9_eviction_schedule (.ms 4000)).2 (by decide),
    (c9_eviction_schedule .unset).2 (by decide)⟩

/-- C2: for every successful send, onDone runs exactly once however many
of its triggers occur (at least one does), and immediately afterwards the
agent's isIdle observable is true. -/
theorem c2_onDone_exactly_once (st : AgentSt) (inp : SendInput) (r : ParsedResponse)
    (hidle : st.isBusy = false) (hab : inp.abortAt = .never) (hor : inp.originMatches = true)
    (hok : readResponseModel inp.isHead inp.socketInput = .ok r)
    (htr : inp.triggers ≠ []) :
    (agentSend st inp).onDoneRuns = 1 ∧ (agentSend st inp).state.isIdle = true := by
  unfold agentSend
  rw [hidle, hab, hor, hok]
  simp only [Bool.false_eq_true, if_false, reduceCtorEq, Bool.not_true, ite_false]
  by_cases hp : r.plan = .ignored
  · rw [if_pos hp]
    exact ⟨rfl, rfl⟩
  · rw [if_neg hp]
    obtain ⟨t, ts, hts⟩ := List.exists_cons_of_ne_nil htr
    rw [hts, runTriggers_cons]
    exact ⟨rfl, rfl⟩

theorem c2_onDone_exactly_once_witness :
    (agentSend ⟨false, false⟩
        ⟨true, false, .never,
          [strBytes "HTTP/1.1 200 OK\r\ncontent-length: 0\r\n\r\n"],
          [.bodyEnd, .cancelOrAbort, .gcFinalize]⟩).onDoneRuns = 1 ∧
      (agentSend ⟨false, false⟩
        ⟨true, false, .never,
          [strBytes "HTTP/1.1 200 OK\r\ncontent-length: 0\r\n\r\n"],
          [.bodyEnd, .cancelOrAbort, .gcFinalize]⟩).state.isIdle = true :=
  c2_onDone_exactly_once ⟨false, false⟩ _
    ⟨some 200, strBytes "OK", [(clName, [48])], .contentLength [48], [], []⟩
    rfl rfl rfl
    (by decide)
    (by simp)

theorem hdrHas_delete_self (n : List Nat) (hs : HeadersL) :
    hdrHas n (hdrDelete n hs) = false := by
  unfold hdrHas hdrDelete
  rw [List.any_eq_false]
  intro x hx
  rcases List.mem_filter.mp hx with ⟨_, hp⟩
  simp only [decide_not, Bool.not_eq_eq_eq_not, Bool.not_true, decide_eq_false_iff_not] at hp
  simpa using hp

theorem hdrHas_false_delete (n m : List Nat) (hs : HeadersL)
    (h : hdrHas n hs = false) : hdrHas n (hdrDelete m hs) = false := by
  unfold hdrHas hdrDelete
  unfold hdrHas at h
  rw [List.any_eq_false] at h ⊢
  intro x hx
  exact h x (List.mem_filter.mp hx).1

theorem ctor_rejects_ignored_status {s : Int}
    (hs : (100 ≤ s ∧ s < 200) ∨ s = 204 ∨ s = 304) (txt : List Nat) :
    responseCtorError (some s) txt ≠ none := by
  rcases hs with ⟨h1, h2⟩ | h | h
  · have hu : statusUint16 (some s) < 200 := by
      show (s % 65536).toNat < 200
      rw [Int.emod_eq_of_lt (by omega) (by omega)]
      omega
    simp only [responseCtorError]
    rw [if_pos (by simp only [Bool.or_eq_true, decide_eq_true_eq]; exact Or.inl hu)]
    simp
  · subst h
    cases hr : reasonPhraseOk txt <;>
      simp +decide [responseCtorError, statusUint16, isNullBodyStatus, hr]
  · subst h
    cases hr : reasonPhraseOk txt <;>
      simp +decide [responseCtorError, statusUint16, isNullBodyStatus, hr]

/-- C5 counterexample: a 204 response to a GET (and equally any non-HEAD
1xx, 204 or 304 response) surfaces no empty-body response at all: the
framing headers are dropped and the closed body stream runs onDone once,
but new Response(bodyStream, init) throws a TypeError for the null-body
status, so send rejects and the catch closes the socket — the claim says
such responses surface an empty body. -/
theorem c5_counterexample :
    readResponseModel false
        [strBytes "HTTP/1.1 204 No Content\r\ncontent-length: 5\r\n\r\n"] =
      .error (.ctorError .typeError true) ∧
    agentSend ⟨false, false⟩
        ⟨true, false, .never,
          [strBytes "HTTP/1.1 204 No Content\r\ncontent-length: 5\r\n\r\n"], []⟩ =
      ⟨⟨false, false⟩, .error (.responseCtor .typeError),
        [.connectOp, .writeOp, .readHeadOp], 1⟩ := by
  constructor
  · decide
  · decide

/-- C5 amended: a surfaced response with an ignored body can only answer a
HEAD request, because the Response constructor accepts no 1xx, 204 or 304
status; for it, the three framing headers are removed and the body is
empty, closed at once with one onDone run and zero socket reads. Every
surfaced response passed the Response constructor, and whenever that
constructor throws instead (as for every non-HEAD 1xx, 204 or 304
response), send rejects with the constructor's error, the socket is
closed, and onDone has run exactly as often as the discarded body stream
fired it. -/
theorem c5_ignored_body_amended :
    (∀ (isHead : Bool) (input : List (List Nat)) (r : ParsedResponse),
      readResponseModel isHead input = .ok r →
      shouldIgnoreBody isHead r.status = true →
      hdrHas clName r.headers = false ∧ hdrHas teName r.headers = false ∧
        hdrHas ceName r.headers = false ∧ r.plan = .ignored ∧
        runBody r.plan r.remaining r.rest = ⟨[], false, 1, 0⟩) ∧
    (∀ (isHead : Bool) (input : List (List Nat)) (r : ParsedResponse),
      readResponseModel isHead input = .ok r →
      shouldIgnoreBody isHead r.status = true → isHead = true) ∧
    (∀ (isHead : Bool) (input : List (List Nat)) (r : ParsedResponse),
      readResponseModel isHead input = .ok r →
      responseCtorError r.status r.statusText = none) ∧
    (∀ (st : AgentSt) (inp : SendInput) (k : CtorKind) (ran : Bool),
      st.isBusy = false → inp.abortAt = .never → inp.originMatches = true →
      readResponseModel inp.isHead inp.socketInput = .error (.ctorError k ran) →
      agentSend st inp =
        ⟨⟨false, false⟩, .error (.responseCtor k),
          (if st.hasConnection then [] else [.connectOp]) ++ [.writeOp, .readHeadOp],
          if ran then 1 else 0⟩) := by
  refine ⟨?_, ?_, ?_, ?_⟩
  · intro isHead input r hok hig
    unfold readResponseModel at hok
    rcases hr : readLineLoop [] input with ⟨o, buf1, in1⟩
    rw [hr] at hok
    cases o with
    | none => simp at hok
    | some line =>
      dsimp only at hok
      split at hok
      · simp at hok
      · simp only [Except.ok.injEq] at hok
        subst hok
        simp only at hig
        rw [hig] at *
        simp only [if_true]
        refine ⟨?_, ?_, ?_, by trivial, by trivial⟩
        · exact hdrHas_false_delete _ _ _
            (hdrHas_false_delete _ _ _ (hdrHas_delete_self _ _))
        · exact hdrHas_false_delete _ _ _ (hdrHas_delete_self _ _)
        · exact hdrHas_delete_self _ _
  · intro isHead input r hok hig
    unfold readResponseModel at hok
    rcases hr : readLineLoop [] input with ⟨o, buf1, in1⟩
    rw [hr] at hok
    cases o with
    | none => simp at hok
    | some line =>
      dsimp only at hok
      split at hok
      · simp at hok
      · rename_i heq
        simp only [Except.ok.injEq] at hok
        subst hok
        simp only at hig
        by_cases hh : isHead = true
        · exact hh
        · simp only [Bool.not_eq_true] at hh
          rw [hh] at hig
          unfold shouldIgnoreBody at hig
          simp only [Bool.false_or] at hig
          cases hst : parseIntJS ((splitSpace line).getD 1 []) with
          | none =>
            rw [hst] at hig
            cases hig
          | some s =>
            rw [hst] at hig heq
            simp only [Bool.or_eq_true, Bool.and_eq_true, decide_eq_true_eq] at hig
            exact absurd heq (ctor_rejects_ignored_status (by tauto) _)
  · intro isHead input r hok
    unfold readResponseModel at hok
    rcases hr : readLineLoop [] input with ⟨o, buf1, in1⟩
    rw [hr] at hok
    cases o with
    | none => simp at hok
    | some line =>
      dsimp only at hok
      split at hok
      · simp at hok
      · rename_i heq
        simp only [Except.ok.injEq] at hok
        subst hok
        exact heq
  · intro st inp k ran hidle hab hor hok
    unfold agentSend
    rw [hidle, hab, hor, hok]
    simp

theorem c5_ignored_body_amended_witness :
    (hdrHas clName ([] : HeadersL) = false ∧ hdrHas teName ([] : HeadersL) = false ∧
      hdrHas ceName ([] : HeadersL) = false ∧ BodyPlan.ignored = BodyPlan.ignored ∧
      runBody .ignored [] [] = ⟨[], false, 1, 0⟩) ∧
    (true : Bool) = true ∧
    responseCtorError (some 200) (strBytes "OK") = none ∧
    agentSend ⟨false, false⟩
        ⟨true, false, .never, [strBytes "HTTP/1.1 304 Not Modified\r\n\r\n"], []⟩ =
      ⟨⟨false, false⟩, .error (.responseCtor .typeError),
        (if (false : Bool) then [] else [.connectOp]) ++ [.writeOp, .readHeadOp],
        if (true : Bool) then 1 else 0⟩ :=
  ⟨c5_ignored_body_amended.1 true
      [strBytes "HTTP/1.1 200 OK\r\ncontent-length: 5\r\n\r\n"]
      ⟨some 200, strBytes "OK", [], .ignored, [], []⟩ (by decide) (by decide),
    c5_ignored_body_amended.2.1 true
      [strBytes "HTTP/1.1 200 OK\r\ncontent-length: 5\r\n\r\n"]
      ⟨some 200, strBytes "OK", [], .ignored, [], []⟩ (by decide) (by decide),
    c5_ignored_body_amended.2.2.1 true
      [strBytes "HTTP/1.1 200 OK\r\ncontent-length: 5\r\n\r\n"]
      ⟨some 200, strBytes "OK", [], .ignored, [], []⟩ (by decide),
    c5_ignored_body_amended.2.2.2 ⟨false, false⟩
      ⟨true, false, .never, [strBytes "HTTP/1.1 304 Not Modified\r\n\r\n"], []⟩
      .typeError true rfl rfl rfl (by decide)⟩

/-- C1 counterexample: a send on a fresh idle agent parses a 200 response
carrying content-length, the caller's cancellation token then fires during
body streaming (the abort listener cancels the body stream, reaching
onDone with its default force-close argument), and the connection is
nevertheless retained for reuse — the claim says a fired cancellation
token always closes the socket. -/
theorem c1_counterexample :
    (agentSend ⟨false, false⟩
      ⟨true, false, .never, [strBytes "HTTP/1.1 200 OK\r\ncontent-length: 2\r\n\r\nab"],
        [.cancelOrAbort]⟩).state.hasConnection = true ∧
    (agentSend ⟨false, false⟩
      ⟨true, false, .never, [strBytes "HTTP/1.1 200 OK\r\ncontent-length: 2\r\n\r\nab"],
        [.cancelOrAbort]⟩).result =
      .ok ⟨some 200, strBytes "OK", [(clName, [50])], .contentLength [50], strBytes "ab", []⟩ := by
  constructor
  · decide
  · decide

/-- C1 amended: once a response has been surfaced (origin matched, no
abort before the head, head parse succeeded and the Response constructor
accepted the status line), the connection is retained for reuse iff the
body is ignored (only possible for a HEAD response, whose onDone ran
inside readResponse with the initial force-close value) or the headers
carry content-length or chunked transfer-encoding and the first completion
trigger is not the finalization-registry cleanup. A cancellation after the
head leaves the framing-based decision unchanged, so the socket can be
reused; an abort before the head completes always closes the socket, and
so does a Response-constructor throw (every non-HEAD 1xx, 204 or 304
response), which send surfaces as the constructor's error. -/
theorem c1_reuse_decision_amended :
    (∀ (st : AgentSt) (inp : SendInput) (r : ParsedResponse) (t : Trigger) (ts : List Trigger),
      st.isBusy = false → inp.abortAt = .never → inp.originMatches = true →
      readResponseModel inp.isHead inp.socketInput = .ok r →
      inp.triggers = t :: ts →
      ((agentSend st inp).state.hasConnection = true ↔
        (r.plan = .ignored ∨ (t ≠ .gcFinalize ∧ reuseFraming r.headers = true)))) ∧
    (∀ (st : AgentSt) (inp : SendInput),
      st.isBusy = false → inp.originMatches = true →
      (inp.abortAt = .duringConnect ∨ inp.abortAt = .duringWrite ∨ inp.abortAt = .duringHead) →
      (agentSend st inp).result = .error .aborted ∧
        (agentSend st inp).state.hasConnection = false) ∧
    (∀ (st : AgentSt) (inp : SendInput) (k : CtorKind) (ran : Bool),
      st.isBusy = false → inp.abortAt = .never → inp.originMatches = true →
      readResponseModel inp.isHead inp.socketInput = .error (.ctorError k ran) →
      (agentSend st inp).result = .error (.responseCtor k) ∧
        (agentSend st inp).state.hasConnection = false) := by
  refine ⟨?_, ?_, ?_⟩
  · intro st inp r t ts hidle hab hor hok htr
    unfold agentSend
    rw [hidle, hab, hor, hok]
    simp only [Bool.false_eq_true, if_false, reduceCtorEq, Bool.not_true, ite_false]
    by_cases hp : r.plan = .ignored
    · rw [if_pos hp]
      simp [hp]
    · rw [if_neg hp]
      rw [htr, runTriggers_cons]
      cases t with
      | bodyEnd =>
        simp only [triggerArg, Option.getD]
        by_cases hf : reuseFraming r.headers = true
        · simp [hf, hp]
        · simp only [Bool.not_eq_true] at hf
          simp [hf, hp]
      | cancelOrAbort =>
        simp only [triggerArg, Option.getD]
        by_cases hf : reuseFraming r.headers = true
        · simp [hf, hp]
        · simp only [Bool.not_eq_true] at hf
          simp [hf, hp]
      | gcFinalize =>
        simp [triggerArg, hp]
  · intro st inp hidle hor habs
    unfold agentSend
    rw [hidle, hor]
    rcases habs with h | h | h <;> rw [h] <;> simp
  · intro st inp k ran hidle hab hor hok
    unfold agentSend
    rw [hidle, hab, hor, hok]
    simp

theorem c1_reuse_decision_amended_witness :
    ((agentSend ⟨false, false⟩
        ⟨true, false, .never, [strBytes "HTTP/1.1 200 OK\r\ntransfer-encoding: chunked\r\n\r\n"],
          [.bodyEnd]⟩).state.hasConnection = true ↔
      ((⟨some 200, strBytes "OK", [(teName, strBytes "chunked")], .chunked, [], []⟩ :
          ParsedResponse).plan = .ignored ∨
        (Trigger.bodyEnd ≠ .gcFinalize ∧
          reuseFraming [(teName, strBytes "chunked")] = true))) ∧
    ((agentSend ⟨false, false⟩ ⟨true, false, .duringConnect, [], []⟩).result =
        .error .aborted ∧
      (agentSend ⟨false, false⟩ ⟨true, false, .duringConnect, [], []⟩).state.hasConnection =
        false) ∧
    ((agentSend ⟨false, false⟩
        ⟨true, false, .never, [strBytes "HTTP/1.1 101 Switching Protocols\r\n\r\n"],
          []⟩).result = .error (.responseCtor .rangeError) ∧
      (agentSend ⟨false, false⟩
        ⟨true, false, .never, [strBytes "HTTP/1.1 101 Switching Protocols\r\n\r\n"],
          []⟩).state.hasConnection = false) :=
  ⟨c1_reuse_decision_amended.1 ⟨false, false⟩ _
      ⟨some 200, strBytes "OK", [(teName, strBytes "chunked")], .chunked, [], []⟩
      .bodyEnd [] rfl rfl rfl (by decide) rfl,
    c1_reuse_decision_amended.2.1 ⟨false, false⟩ ⟨true, false, .duringConnect, [], []⟩
      rfl rfl (Or.inl rfl),
    c1_reuse_decision_amended.2.2 ⟨false, false⟩
      ⟨true, false, .never, [strBytes "HTTP/1.1 101 Switching Protocols\r\n\r\n"], []⟩
      .rangeError true rfl rfl rfl (by decide)⟩

/-- C4 counterexample: a bare LF after chunk data makes the chunked
decoder error out (the same body framed with CRLF decodes fine), while the
claim says the decoder also accepts bare LF terminators. -/
theorem c4_counterexample :
    chunkedDecodeAll [strBytes "1\r\nA\n0\r\n\r\n"] = .failed [65] ∧
      chunkedDecodeAll [strBytes "1\r\nA\r\n0\r\n\r\n"] = .ok [65] := by
  constructor
  · decide
  · decide

/-- C4 amended: the status and header line reader accepts CRLF and bare LF
terminators, but the chunked decoder does not: a chunk-size line is only
complete at a CRLF pair (a bare LF leaves it pending), and after chunk
data any two available bytes other than CRLF — a bare LF included — are a
failure. -/
theorem c4_line_endings_amended :
    (∀ (line rest : List Nat), 10 ∉ line →
      findLineEnd (line ++ 13 :: 10 :: rest) = some (line.length, 2)) ∧
    (∀ (line rest : List Nat), 10 ∉ line → line.getLast? ≠ some 13 →
      findLineEnd (line ++ 10 :: rest) = some (line.length, 1)) ∧
    (∀ (line : List Nat), 13 ∉ line → decReadLine (line ++ [10]) = none) ∧
    (∀ (b0 b1 : Nat) (rest : List Nat) (cs cbr : Nat), ¬(b0 = 13 ∧ b1 = 10) →
      chunkedLoop (b0 :: b1 :: rest) .afterChunk cs cbr = .errored []) := by
  refine ⟨?_, ?_, ?_, ?_⟩
  · intro line
    induction line with
    | nil =>
      intro rest _
      simp only [List.nil_append]
      rw [findLineEnd]
      simp
    | cons x xs ih =>
      intro rest h
      have hx : x ≠ 10 := fun hq => h (by simp [hq])
      have hxs : 10 ∉ xs := fun hq => h (List.mem_cons_of_mem _ hq)
      cases hc : xs ++ 13 :: 10 :: rest with
      | nil => simp at hc
      | cons y ys =>
        simp only [List.cons_append, hc]
        rw [findLineEnd]
        have hy : ¬(x = 13 && y = 10) = true := by
          simp only [Bool.and_eq_true, decide_eq_true_eq]
          rintro ⟨hx13, hy10⟩
          subst hx13
          cases xs with
          | nil =>
            simp only [List.nil_append] at hc
            cases hc
            exact absurd hy10 (by decide)
          | cons z zs =>
            simp only [List.cons_append] at hc
            have : z = y := (List.cons.injEq _ _ _ _).mp hc |>.1
            subst this
            subst hy10
            exact hxs (by simp)
        rw [if_neg hy, if_neg (by simpa using hx)]
        have := ih rest hxs
        rw [hc] at this
        rw [this]
        simp
  · intro line
    induction line with
    | nil =>
      intro rest _ _
      simp only [List.nil_append]
      cases rest with
      | nil => rfl
      | cons z zs =>
        rw [findLineEnd]
        simp
    | cons x xs ih =>
      intro rest h hlast
      have hx : x ≠ 10 := fun hq => h (by simp [hq])
      have hxs : 10 ∉ xs := fun hq => h (List.mem_cons_of_mem _ hq)
      cases hxse : xs with
      | nil =>
        have hx13 : x ≠ 13 := by
          intro hq
          subst hxse
          exact hlast (by simp [hq])
        simp only [List.nil_append, List.cons_append]
        rw [findLineEnd]
        have h1 : ¬(x = 13 && (10 : Nat) = 10) = true := by
          simp only [Bool.and_eq_true, decide_eq_true_eq]
          rintro ⟨hq, _⟩
          exact hx13 hq
        rw [if_neg h1, if_neg (by simpa using hx)]
        cases rest with
        | nil => rfl
        | cons z zs =>
          rw [findLineEnd]
          simp
      | cons w ws =>
        have hlast' : xs.getLast? ≠ some 13 := by
          rw [hxse]
          intro hq
          apply hlast
          rw [hxse, List.getLast?_cons_cons]
          exact hq
        rw [← hxse]
        have hrec := ih rest hxs hlast'
        cases hc : xs ++ 10 :: rest with
        | nil => simp at hc
        | cons y ys =>
          simp only [List.cons_append, hc]
          rw [findLineEnd]
          have hy : ¬(x = 13 && y = 10) = true := by
            simp only [Bool.and_eq_true, decide_eq_true_eq]
            rintro ⟨hx13, hy10⟩
            rw [hxse] at hc
            simp only [List.cons_append] at hc
            have : w = y := (List.cons.injEq _ _ _ _).mp hc |>.1
            subst this
            subst hy10
            exact hxs (by rw [hxse]; simp)
          rw [if_neg hy, if_neg (by simpa using hx)]
          rw [hc] at hrec
          rw [hrec]
          simp
  · intro line h13
    unfold decReadLine
    rw [findCRLF_no13]
    · intro b hb
      rcases List.mem_append.mp hb with hb | hb
      · exact fun hq => h13 (hq ▸ hb)
      · have : b = 10 := by simpa using hb
        omega
  · intro b0 b1 rest cs cbr h
    rw [chunkedLoop_unfold]
    simp only [List.isEmpty_cons, Bool.false_eq_true, if_false]
    have h1 : ¬(2 ≤ (b0 :: b1 :: rest).length && (b0 :: b1 :: rest).getD 0 0 = 13 &&
        (b0 :: b1 :: rest).getD 1 0 = 10) = true := by
      simp only [Bool.and_eq_true, decide_eq_true_eq, List.length_cons, List.getD]
      rintro ⟨⟨_, hb0⟩, hb1⟩
      exact h ⟨by simpa using hb0, by simpa using hb1⟩
    have h2 : ¬((b0 :: b1 :: rest).length = 1 && (b0 :: b1 :: rest).getD 0 0 = 13) = true := by
      simp only [Bool.and_eq_true, decide_eq_true_eq, List.length_cons]
      rintro ⟨hl, _⟩
      omega
    rw [if_neg h1, if_neg h2]

theorem c4_line_endings_amended_witness :
    findLineEnd [65, 13, 10] = some (1, 2) ∧
      findLineEnd [65, 10] = some (1, 1) ∧
      decReadLine [49, 10] = none ∧
      chunkedLoop [10, 48] .afterChunk 1 1 = .errored [] :=
  ⟨by
      have h := c4_line_endings_amended.1 [65] [] (by decide)
      simpa using h,
    by
      have h := c4_line_endings_amended.2.1 [65] [] (by decide) (by decide)
      simpa using h,
    by
      have h := c4_line_endings_amended.2.2.1 [49] (by decide)
      simpa using h,
    c4_line_endings_amended.2.2.2 10 48 [] 1 1 (by decide)⟩

/-- C6 counterexample: end of file in the middle of the header block
yields a successfully parsed response (truncated headers, read-until-close
body that ends cleanly), and end of file before a content-length body is
complete surfaces the received prefix without any error — the claim says
both fail with the UnexpectedEof error. -/
theorem c6_counterexample :
    ((readResponseModel false [strBytes "HTTP/1.1 200 OK\r\nconte"]).toOption.map
        (fun r => (r.plan, (runBody r.plan r.remaining r.rest).errored)) =
      some (.untilClose, false)) ∧
    ((readResponseModel false
          [strBytes "HTTP/1.1 200 OK\r\ncontent-length: 5\r\n\r\nab"]).toOption.map
        (fun r => ((runBody r.plan r.remaining r.rest).content,
          (runBody r.plan r.remaining r.rest).errored)) =
      some (strBytes "ab", false)) := by
  constructor
  · decide
  · decide

/-- C6 amended: the UnexpectedEof error is raised exactly when end of file
precedes the very first status-line byte; end of file inside the header
block or inside a content-length body is tolerated silently (truncated
headers, short body content without error), and only a chunked body
truncated strictly inside a chunk after at least one data byte errors at
flush time. -/
theorem c6_eof_behavior_amended :
    (∀ (isHead : Bool) (input : List (List Nat)),
      readResponseModel isHead input = .error .unexpectedEof ↔ input.flatten = []) ∧
    (∀ (v remaining : List Nat) (rest : List (List Nat)) (n : Int),
      parseIntJS v = some n → (remaining ++ rest.flatten).length < n.toNat →
      runBody (.contentLength v) remaining rest =
        ⟨remaining ++ rest.flatten, false, 1, rest.length⟩) ∧
    (∀ (inputs : List (List Nat)) (s : DecSt) (out : List Nat),
      runDec decInit inputs = .pending s out →
      (chunkedDecodeAll inputs = .failed out ↔
        (s.phase = .data ∧ 0 < s.chunkBytesRead ∧ s.chunkBytesRead < s.chunkSize))) := by
  refine ⟨readResponseModel_error_iff, ?_, ?_⟩
  · intro v remaining rest n hparse hshort
    unfold runBody
    dsimp only
    rw [hparse]
    dsimp only
    rw [if_neg (by omega)]
  · intro inputs s out hrun
    unfold chunkedDecodeAll
    rw [hrun]
    dsimp only
    by_cases hf : flushErrors s = true
    · rw [if_pos hf]
      simp only [flushErrors, Bool.and_eq_true, decide_eq_true_eq] at hf
      simp only [true_iff]
      exact ⟨hf.1.1, hf.1.2, hf.2⟩
    · rw [if_neg hf]
      simp only [flushErrors, Bool.and_eq_true, decide_eq_true_eq, not_and] at hf
      constructor
      · intro hq
        cases hq
      · rintro ⟨h1, h2, h3⟩
        exact absurd h3 (hf ⟨h1, h2⟩)

theorem c6_eof_behavior_amended_witness :
    readResponseModel false [[]] = .error .unexpectedEof ∧
      runBody (.contentLength [53]) [] [[97]] = ⟨[97], false, 1, 1⟩ ∧
      chunkedDecodeAll [strBytes "2\r\nA"] = .failed [65] :=
  ⟨(c6_eof_behavior_amended.1 false [[]]).mpr (by decide),
    c6_eof_behavior_amended.2.1 [53] [] [[97]] 5 (by decide) (by decide),
    (c6_eof_behavior_amended.2.2 [strBytes "2\r\nA"] ⟨[], .data, 2, 1⟩ [65]
      (by decide)).mpr (by decide)⟩

theorem digitChar_ne_slash (d : Nat) : digitChar d ≠ '/' := by
  unfold digitChar
  repeat' split
  all_goals decide

theorem decChars_getLast_digit (p : Nat) :
    ∃ d, (decChars p).getLast? = some (digitChar d) := by
  unfold decChars
  by_cases h : p = 0
  · rw [if_pos h]
    exact ⟨0, rfl⟩
  · rw [if_neg h]
    match p, h with
    | m + 1, _ =>
      rw [decCharsCore]
      exact ⟨(m + 1) % 10, by rw [List.getLast?_concat]⟩

theorem urlOrigin_getLast_ne_slash (u : UrlModel) (hWF : UrlWF u) :
    (urlOrigin u).getLast? ≠ some '/' := by
  obtain ⟨hne, hns⟩ := hWF
  unfold urlOrigin
  cases hp : u.port with
  | none =>
    dsimp only
    rw [List.append_nil]
    rw [List.getLast?_append_of_ne_nil _ hne]
    intro hq
    obtain ⟨hwit, heq⟩ := List.mem_getLast?_eq_getLast (by rw [hq]; rfl)
    exact hns _ (heq ▸ List.getLast_mem hwit) rfl
  | some q =>
    obtain ⟨d, hd⟩ := decChars_getLast_digit q
    dsimp only
    rw [List.getLast?_append_of_ne_nil _ (by simp)]
    have hcons : (':' :: decChars q).getLast? = (decChars q).getLast? := by
      cases hdq : decChars q with
      | nil =>
        rw [hdq] at hd
        cases hd
      | cons a l => rw [List.getLast?_cons_cons]
    rw [hcons, hd]
    intro hq
    exact digitChar_ne_slash d (by injection hq)

/-- C10: the origin guard compares the origin string of the resolved
request URL for string equality against the raw baseUrl, before any
socket operation: a passing check forces baseUrl to be exactly a
serialized origin, a baseUrl ending in a slash (trailing slash or path)
fails the check for every well-formed request URL, and a failing check
makes send throw the origin-mismatch error with no connect, write or read
performed. -/
theorem c10_origin_check :
    (∀ (u : UrlModel) (base : List Char),
      originMatchesCheck u base = true → base = urlOrigin u) ∧
    (∀ (u : UrlModel) (base : List Char), UrlWF u → base.getLast? = some '/' →
      originMatchesCheck u base = false) ∧
    (∀ (st : AgentSt) (inp : SendInput), st.isBusy = false → inp.abortAt ≠ .preSend →
      inp.originMatches = false →
      agentSend st inp = ⟨⟨false, false⟩, .error .originMismatch, [], 0⟩) := by
  refine ⟨?_, ?_, ?_⟩
  · intro u base h
    unfold originMatchesCheck at h
    exact (of_decide_eq_true h).symm
  · intro u base hWF hlast
    unfold originMatchesCheck
    rw [decide_eq_false_iff_not]
    intro heq
    exact urlOrigin_getLast_ne_slash u hWF (by rw [heq, hlast])
  · intro st inp hidle hab hor
    unfold agentSend
    rw [hidle, hor, if_neg hab]
    simp

theorem c10_origin_check_witness :
    (['h', 't', 't', 'p', ':', '/', '/', 'a'] =
        urlOrigin ⟨.http, ['a'], none⟩) ∧
      originMatchesCheck ⟨.http, ['a'], none⟩
        ['h', 't', 't', 'p', ':', '/', '/', 'a', '/'] = false ∧
      agentSend ⟨false, false⟩ ⟨false, false, .never, [], []⟩ =
        ⟨⟨false, false⟩, .error .originMismatch, [], 0⟩ :=
  ⟨c10_origin_check.1 ⟨.http, ['a'], none⟩ _ (by decide),
    c10_origin_check.2.1 ⟨.http, ['a'], none⟩ _ (by decide) (by decide),
    c10_origin_check.2.2 ⟨false, false⟩ ⟨false, false, .never, [], []⟩ rfl
      (by decide) rfl⟩

end SimpleFetch
